import Mathlib

/-!
# Verification of the `raytracing` repository's core intersection subsystem

Shallow embedding of the Rust sources under `src/` (crate `raytracing`), over
exact rational arithmetic (`ℚ` stands in for `f64`; every claim under test is
about exact values "within floating-point tolerance", so the idealised-real
reading is the one formalised).  Division on `ℚ` is total with `q / 0 = 0`;
wherever IEEE semantics of `1/0 = ±inf` could matter (the AABB slab test) the
theorems below either treat the test as an opaque boolean or use rays with
nonzero direction components, so the divergence is never exercised.

`f64::sqrt` has no exact rational counterpart; following the source's use
sites, square roots appear in two ways:
* `ratSqrt` is the embedding used inside executable definitions; it is exact
  precisely on perfect squares, and all concrete inputs evaluated in this file
  have perfect-square radicands, where it agrees with the ideal square root;
* general theorems about `Sphere::hit` are stated over `sphereHitCore`, which
  receives the value `sqrtd` of `f64::sqrt(discriminant)` as an argument
  together with the hypotheses (`sqrtd * sqrtd = discriminant`, `0 ≤ sqrtd`)
  that characterise it.

Materials are modelled as arena indices (`ℕ`), following the repository
design note "shared, immutable, arena-indexed"; a material's behaviour
(`scatter`, `emitted`), where needed, is an explicit function of the index.
-/

/-- Exact rational square root used to embed `f64::sqrt`: correct (and equal to
the ideal square root) whenever the numerator and denominator are perfect
squares, which covers every concrete evaluation in this file. -/
def ratSqrt (q : ℚ) : ℚ :=
  (Nat.sqrt q.num.toNat : ℚ) / (Nat.sqrt q.den : ℚ)

/-- `Vec3` from `src/src/vec3/vec3_impl.rs`: three `f64` components `e[0..3]`. -/
structure Vec3 where
  x : ℚ
  y : ℚ
  z : ℚ
deriving DecidableEq, Repr

/-- Component access, embedding `v.e[axis]` / `Index<usize> for Vec3`. -/
def Vec3.get (v : Vec3) : Fin 3 → ℚ
  | 0 => v.x
  | 1 => v.y
  | 2 => v.z

/-- `Vec3::new`. -/
def Vec3.mk3 (a b c : ℚ) : Vec3 := ⟨a, b, c⟩

instance : Add Vec3 := ⟨fun a b => ⟨a.x + b.x, a.y + b.y, a.z + b.z⟩⟩

instance : Sub Vec3 := ⟨fun a b => ⟨a.x - b.x, a.y - b.y, a.z - b.z⟩⟩

instance : Neg Vec3 := ⟨fun a => ⟨-a.x, -a.y, -a.z⟩⟩

/-- Scalar multiplication `v * t` (`Mul<f64> for Vec3`). -/
def Vec3.smul (t : ℚ) (v : Vec3) : Vec3 := ⟨t * v.x, t * v.y, t * v.z⟩

/-- Scalar division `v / t` (`Div<f64> for Vec3`). -/
def Vec3.sdiv (v : Vec3) (t : ℚ) : Vec3 := ⟨v.x / t, v.y / t, v.z / t⟩

/-- `Vec3::dot`. -/
def Vec3.dot (a b : Vec3) : ℚ := a.x * b.x + a.y * b.y + a.z * b.z

/-- `Vec3::length_squared`. -/
def Vec3.length_squared (v : Vec3) : ℚ := v.x * v.x + v.y * v.y + v.z * v.z

/-- `Vec3::length` = `f64::sqrt(length_squared)`, embedded via `ratSqrt`. -/
def Vec3.length (v : Vec3) : ℚ := ratSqrt v.length_squared

/-- `Point` is an alias of `Vec3` in the source. -/
abbrev Point := Vec3

/-- `Ray` from `src/raytracer/src/ray.rs`: origin, direction and a time used
for motion blur. -/
structure Ray where
  origin : Point
  direction : Vec3
  time : ℚ
deriving DecidableEq, Repr

/-- `Ray::new_with_time`. -/
def Ray.new_with_time (origin : Point) (direction : Vec3) (time : ℚ) : Ray :=
  ⟨origin, direction, time⟩

/-- `Ray::at`: `origin + direction * t`. -/
def Ray.at (r : Ray) (t : ℚ) : Point := r.origin + Vec3.smul t r.direction

/-- `HitRecord` from `src/src/objects/hittable.rs`; `mat` is an arena index
standing for the `Rc<dyn Material>` handle. -/
structure HitRecord where
  p : Point
  normal : Vec3
  mat : ℕ
  t : ℚ
  u : ℚ
  v : ℚ
  front_face : Bool
deriving DecidableEq, Repr

/-- `HitRecord::set_face_normal`: orient the stored normal against the
incoming ray and record the side. -/
def HitRecord.set_face_normal (rec : HitRecord) (r : Ray) (outward_normal : Vec3) :
    HitRecord :=
  let ff := r.direction.dot outward_normal < 0
  { rec with front_face := ff, normal := if ff then outward_normal else -outward_normal }

/-- `AABB` from `src/src/objects/bounding_box/aabb.rs`. -/
structure AABB where
  minimum : Point
  maximum : Point
deriving DecidableEq, Repr

/-- `AABB::surrounding_box`: componentwise min/max union of two boxes. -/
def AABB.surrounding_box (box1 box2 : AABB) : AABB :=
  { minimum := ⟨min box1.minimum.x box2.minimum.x,
                min box1.minimum.y box2.minimum.y,
                min box1.minimum.z box2.minimum.z⟩
    maximum := ⟨max box1.maximum.x box2.maximum.x,
                max box1.maximum.y box2.maximum.y,
                max box1.maximum.z box2.maximum.z⟩ }

/-- One axis of `AABB::hit`'s slab test: computes the reciprocal of the
direction component, the two plane parameters (swapped when the reciprocal is
negative), clips them against the running interval and reports whether the
interval stayed nonempty. -/
def AABB.slabAxis (bb : AABB) (r : Ray) (t_min t_max : ℚ) (a : Fin 3) : Bool :=
  let inv_d := 1 / r.direction.get a
  let t0 := (bb.minimum.get a - r.origin.get a) * inv_d
  let t1 := (bb.maximum.get a - r.origin.get a) * inv_d
  let t0' := if inv_d < 0 then t1 else t0
  let t1' := if inv_d < 0 then t0 else t1
  let t_min_temp := if t0' > t_min then t0' else t_min
  let t_max_temp := if t1' < t_max then t1' else t_max
  ¬ (t_max_temp ≤ t_min_temp)

/-- `AABB::hit`: the slab test over all three axis pairs. -/
def AABB.hit (bb : AABB) (r : Ray) (t_min t_max : ℚ) : Bool :=
  bb.slabAxis r t_min t_max 0 && bb.slabAxis r t_min t_max 1 &&
    bb.slabAxis r t_min t_max 2

/-- Sphere data from `src/src/objects/sphere.rs` (center, radius, material
handle). -/
structure Sphere where
  center : Point
  radius : ℚ
  material : ℕ
deriving DecidableEq, Repr

/-- The discriminant of `Sphere::hit`'s quadratic:
`half_b * half_b - a * c`. -/
def sphereDiscriminant (s : Sphere) (r : Ray) : ℚ :=
  let oc := r.origin - s.center
  let a := r.direction.length_squared
  let half_b := oc.dot r.direction
  let c := oc.length_squared - s.radius * s.radius
  half_b * half_b - a * c

/-- `Sphere::get_sphere_uv` involves `acos`/`atan2`, which have no exact
rational embedding; the u,v coordinates are irrelevant to every claim below,
so the embedding returns the pair as an uninterpreted function of the outward
normal.  (Claims never inspect `u`/`v`.) -/
def sphereUV (_outward_normal : Point) : ℚ × ℚ := (0, 0)

/-- Core of `Sphere::hit`, with the value `sqrtd` of
`f64::sqrt(discriminant)` passed explicitly (theorems characterise it by
`sqrtd * sqrtd = discriminant ∧ 0 ≤ sqrtd`).  Mirrors the source: reject a
negative discriminant, prefer the smaller root, fall back to the larger,
reject roots outside `[t_min, t_max]` (the source tests
`root < t_min || root > t_max`). -/
def sphereHitCore (s : Sphere) (r : Ray) (t_min t_max : ℚ) (sqrtd : ℚ) :
    Option HitRecord :=
  let oc := r.origin - s.center
  let a := r.direction.length_squared
  let half_b := oc.dot r.direction
  let c := oc.length_squared - s.radius * s.radius
  let discriminant := half_b * half_b - a * c
  if discriminant < 0 then none
  else
    let root1 := (-half_b - sqrtd) / a
    let root2 := (-half_b + sqrtd) / a
    let root? : Option ℚ :=
      if root1 < t_min ∨ root1 > t_max then
        if root2 < t_min ∨ root2 > t_max then none else some root2
      else some root1
    root?.map fun root =>
      let p := r.at root
      let outward_normal := (p - s.center).sdiv s.radius
      let uv := sphereUV outward_normal
      let hit_rec : HitRecord :=
        { t := root, p := p, normal := ⟨0, 0, 0⟩, front_face := false,
          mat := s.material, u := uv.1, v := uv.2 }
      hit_rec.set_face_normal r outward_normal

/-- `Sphere::hit` with the square root taken by the executable `ratSqrt`
(exact on the perfect-square discriminants used in concrete evaluations). -/
def sphereHit (s : Sphere) (r : Ray) (t_min t_max : ℚ) : Option HitRecord :=
  sphereHitCore s r t_min t_max (ratSqrt (sphereDiscriminant s r))

/-- `Sphere::bounding_box`: center ± (radius, radius, radius). -/
def sphereBoundingBox (s : Sphere) : AABB :=
  { minimum := s.center - ⟨s.radius, s.radius, s.radius⟩
    maximum := s.center + ⟨s.radius, s.radius, s.radius⟩ }

/-- An element of the scene's primitive collection, standing for one
`Rc<dyn Hittable>` handle: its `hit` and `bounding_box` virtual methods.
Identity of the handle (and hence of the hit records it produces) is carried
by the functions themselves. -/
structure Prim where
  hit : Ray → ℚ → ℚ → Option HitRecord
  box : ℚ → ℚ → Option AABB

/-- The shape of a built BVH: `BVHNode::new_helper` produces a node whose two
children are either primitives (`object_span` 1 or 2) or further `BVHNode`s. -/
inductive HTree where
  | prim (p : Prim)
  | node (left right : HTree) (bbox : AABB)

/-- `Hittable::bounding_box` of a child as `new_helper` consults it: a
primitive answers its own `bounding_box(time0, time1)`; a `BVHNode` returns
its stored box. -/
def HTree.boundingBox : HTree → ℚ → ℚ → Option AABB
  | .prim p, t0, t1 => p.box t0 t1
  | .node _ _ bb, _, _ => some bb

/-- `BVHNode::hit` (and, at the leaves, the wrapped primitive's `hit`):
return none early on a failed slab test, query the left child on the full
interval, query the right child with `t_max` tightened to the left hit's `t`
when the left child hit, and combine, keeping the right result when both
children hit. -/
def HTree.hit : HTree → Ray → ℚ → ℚ → Option HitRecord
  | .prim p, r, t_min, t_max => p.hit r t_min t_max
  | .node l rt bb, r, t_min, t_max =>
    if bb.hit r t_min t_max then
      let left := l.hit r t_min t_max
      let right := rt.hit r t_min (match left with | some v => v.t | none => t_max)
      match left, right with
      | none, none => none
      | some lbox, none => some lbox
      | none, some rbox => some rbox
      | some _, some rbox => some rbox
    else none

/-- `HittableList::hit`: fold over the collection with a running
`closest_so_far` that shrinks to each accepted hit's `t`. -/
def listHit (objects : List Prim) (r : Ray) (t_min t_max : ℚ) : Option HitRecord :=
  (objects.foldl
    (fun acc val =>
      match val.hit r t_min acc.2 with
      | some rec => (some rec, rec.t)
      | none => acc)
    ((none : Option HitRecord), t_max)).1

/-- `BVHNode::box_compare`: compare bounding boxes at times `(0,0)` by the
minimum corner along `axis`; `none` embeds the `Err` that the construction
comparator `unwrap`s into a panic. -/
def box_compare (a b : Prim) (axis : Fin 3) : Option Ordering :=
  match a.box 0 0, b.box 0 0 with
  | some a_box, some b_box =>
    some (if a_box.minimum.get axis ≤ b_box.minimum.get axis then .lt else .gt)
  | _, _ => none

/-- Outcome of `BVHNode::new_helper` as observed by a caller: a value, an
`Err` string, a panic (from the comparator's `unwrap`), or no return at all
(the `object_span == 0` path recurses forever). -/
inductive BResult where
  | ok (t : HTree)
  | err (msg : String)
  | panicked
  | diverged

/-- The random axis draws: `random_int(0,2)` per `new_helper` call, modelled
as a pre-drawn stream consumed left to right. -/
def Axes := ℕ → Fin 3

/-- The `sort_by` on a sublist: the concrete order produced by the standard
library's sort under the repository's comparator is only constrained up to
the comparator's answers, so the model takes the sorting routine as an
oracle constrained only to permute its input — which covers every order the
real sort can produce. -/
def Sorter := (l : List Prim) → Fin 3 → { l' : List Prim // l'.Perm l }

/-- `BVHNode::new_helper` on the slice `[start, end)` of the cloned vector
(the slice contents are all the call ever reads or writes, so the model
passes them directly).  Returns the result, the final state of the vector the
caller passed by `&mut` (never written: the body clones it first), and the
advanced random stream position.  Spans 1 and 2 mirror the source exactly;
for spans ≥ 3 the sort's comparator `unwrap`s `box_compare` on every element
(each element of a length ≥ 2 slice takes part in at least one comparison),
so a missing `bounding_box(0,0)` panics there; the empty span recurses
forever. -/
def newHelper (sorter : Sorter) (axes : Axes) :
    List Prim → ℚ → ℚ → ℕ → BResult × List Prim × ℕ
  | [], _, _, n => (.diverged, [], n + 1)
  | [p], time0, time1, n =>
    let res :=
      match p.box time0 time1, p.box time0 time1 with
      | some lb, some rb =>
        .ok (.node (.prim p) (.prim p) (AABB.surrounding_box lb rb))
      | _, _ => .err ("No bounding box in BVHNode constructor.\n")
    (res, [p], n + 1)
  | [p, q], time0, time1, n =>
    let axis := axes n
    match box_compare p q axis with
    | none => (.panicked, [p, q], n + 1)
    | some ord =>
      let lr := if ord = .lt then (p, q) else (q, p)
      let res :=
        match lr.1.box time0 time1, lr.2.box time0 time1 with
        | some lb, some rb =>
          .ok (.node (.prim lr.1) (.prim lr.2) (AABB.surrounding_box lb rb))
        | _, _ => .err ("No bounding box in BVHNode constructor.\n")
      (res, [p, q], n + 1)
  | p :: q :: s :: rest, time0, time1, n =>
    let src := p :: q :: s :: rest
    let axis := axes n
    if src.any (fun o => (o.box 0 0).isNone) then (.panicked, src, n + 1)
    else
      let objects := (sorter src axis).1
      let mid := src.length / 2
      let lhalf := objects.take mid
      let rhalf := objects.drop mid
      let leftOut := newHelper sorter axes lhalf time0 time1 (n + 1)
      match leftOut.1 with
      | .ok ltree =>
        let rightOut := newHelper sorter axes rhalf time0 time1 leftOut.2.2
        match rightOut.1 with
        | .ok rtree =>
          let res :=
            match ltree.boundingBox time0 time1, rtree.boundingBox time0 time1 with
            | some lb, some rb =>
              .ok (.node ltree rtree (AABB.surrounding_box lb rb))
            | _, _ => .err ("No bounding box in BVHNode constructor.\n")
          (res, src, rightOut.2.2)
        | other => (other, src, rightOut.2.2)
      | other => (other, src, leftOut.2.2)
  termination_by l => l.length
  decreasing_by
  all_goals
    have hlen := ((sorter (p :: q :: s :: rest) (axes n)).2).length_eq
    simp [List.length_take, hlen]
    omega

/-- `BVHNode::new`: delegate to `new_helper` over the whole collection. -/
def bvhNew (sorter : Sorter) (axes : Axes) (src_objects : List Prim)
    (time0 time1 : ℚ) (n : ℕ) : BResult × List Prim × ℕ :=
  newHelper sorter axes src_objects time0 time1 n

/-- The primitives at the leaves of a built tree. -/
def HTree.leaves : HTree → List Prim
  | .prim p => [p]
  | .node l r _ => l.leaves ++ r.leaves

/-- `Translate::hit` from `src/src/objects/translate.rs`, generic over the
wrapped `Rc<dyn Hittable>`'s hit function: build the moved ray by subtracting
the offset from the origin, delegate, then update the record (the source
assigns `hit_rec.p = self.offset` and re-orients the inner normal against the
moved ray). -/
def translateHit (inner : Ray → ℚ → ℚ → Option HitRecord) (offset : Vec3)
    (r : Ray) (t_min t_max : ℚ) : Option HitRecord :=
  let moved_ray := Ray.new_with_time (r.origin - offset) r.direction r.time
  (inner moved_ray t_min t_max).map fun hit_rec =>
    let hit_rec := { hit_rec with p := offset }
    let normal := hit_rec.normal
    hit_rec.set_face_normal moved_ray normal

/-- An `f64` interval endpoint as the integrator and volume code pass it:
either a finite value or one of the IEEE infinities (`utils::INFINITY`). -/
inductive FBound where
  | negInf
  | finite (q : ℚ)
  | posInf
deriving DecidableEq, Repr

/-- An abstract `Hittable` handle as consumed with possibly-infinite interval
endpoints (the integrator's world and the constant medium's boundary). -/
def HitFun := Ray → FBound → FBound → Option HitRecord

/-- `ConstantMedium` fields (`src/src/objects/volumes/constant_medium.rs`):
the wrapped boundary, the phase function handle, and `neg_inv_density`. -/
structure ConstantMedium where
  neg_inv_density : ℚ
  boundary : HitFun
  phase_function : ℕ

/-- `ConstantMedium::new`: note the source stores `1.0 / density`, with no
negation, in the field named `neg_inv_density`. -/
def ConstantMedium.new (boundary : HitFun) (phase_function : ℕ) (density : ℚ) :
    ConstantMedium :=
  { boundary := boundary, phase_function := phase_function,
    neg_inv_density := 1 / density }

/-- `ConstantMedium::hit`.  The drawn uniform `u` enters the source only
through `random_in_unit_interval().log(10.0)`; since `log` base 10 is not
rational-valued, the model takes that already-computed value `log10_u` as the
sampled argument (it is exact whenever `u` is a power of ten).  Everything
else mirrors the source: find an entry crossing over `(-inf, inf)`, an exit
crossing from just past it, clamp both to the caller interval, reject an
empty interval, compare `neg_inv_density * log10_u` with the distance inside
the boundary, and synthesize a record with normal `(1,0,0)`, `front_face`
true and the phase function's material. -/
def ConstantMedium.hit (m : ConstantMedium) (log10_u : ℚ) (r : Ray)
    (t_min t_max : ℚ) : Option HitRecord :=
  match m.boundary r .negInf .posInf with
  | none => none
  | some rec1 =>
    match m.boundary r (.finite (rec1.t + 1 / 10000)) .posInf with
    | none => none
    | some rec2 =>
      let r1t := if rec1.t < t_min then t_min else rec1.t
      let r2t := if rec2.t > t_max then t_max else rec2.t
      if r1t ≥ r2t then none
      else
        let r1t := if r1t < 0 then 0 else r1t
        let ray_length := r.direction.length
        let distance_inside_boundary := (r2t - r1t) * ray_length
        let hit_distance := m.neg_inv_density * log10_u
        if hit_distance > distance_inside_boundary then none
        else
          let t := r1t + hit_distance * ray_length
          some { p := r.at t, normal := ⟨1, 0, 0⟩, mat := m.phase_function,
                 t := t, u := 0, v := 0, front_face := true }

/-- Material behaviour for the integrator: the `scatter` and `emitted`
methods of the arena of materials, as functions of the handle.  `scatter`'s
internal randomness is captured by quantifying over the function. -/
structure MaterialArena where
  scatter : ℕ → Ray → HitRecord → Option (Ray × Vec3)
  emitted : ℕ → ℚ → ℚ → Point → Vec3

/-- `ray_color` from `src/src/renderer.rs`: black at depth 0; otherwise query
the world with `t_min = 0.001`, `t_max = INFINITY`; on a miss return the
background color; on a hit add the emission to the attenuated color of the
scattered ray, or return the emission alone when `scatter` yields none. -/
def rayColor (mats : MaterialArena) (world : HitFun) (bg_color : Vec3) :
    Ray → ℕ → Vec3
  | _, 0 => ⟨0, 0, 0⟩
  | r, depth + 1 =>
    match world r (.finite (1 / 1000)) .posInf with
    | some hit_rec =>
      let emitted := mats.emitted hit_rec.mat hit_rec.u hit_rec.v hit_rec.p
      match mats.scatter hit_rec.mat r hit_rec with
      | some (scattered, attenuation) =>
        emitted + ⟨attenuation.x * (rayColor mats world bg_color scattered depth).x,
                   attenuation.y * (rayColor mats world bg_color scattered depth).y,
                   attenuation.z * (rayColor mats world bg_color scattered depth).z⟩
      | none => emitted
    | none => bg_color

/-- The sequence of arguments the sequential renderer
(`src/src/renderer.rs::render`) actually passes to `progress_callback`.  The
loop over `i in 0..width*height` computes `x = i / width`, `y = i % width`,
calls `imout.get_pixel_mut(x, y)` on the `width x height` buffer — which
panics when `x ≥ width` or `y ≥ height` — and only then, at the end of the
iteration, reports `y as f64 / height as f64 * 100.0`.  The callbacks that
fire are therefore exactly those of the iterations before the first
out-of-bounds pixel access: the `takeWhile` prefix of the loop range. -/
def renderProgressList (width height : ℕ) : List ℚ :=
  ((List.range (width * height)).takeWhile
      (fun i => decide (i / width < width ∧ i % width < height))).map
    fun i => ((i % width : ℕ) : ℚ) / (height : ℚ) * 100

/-- Whether the sequential renderer's loop panics before completing: true
exactly when some iteration's `get_pixel_mut(i / width, i % width)` indexes
outside the `width x height` buffer. -/
def renderPanics (width height : ℕ) : Bool :=
  (List.range (width * height)).any
    fun i => decide (¬ (i / width < width ∧ i % width < height))

/-- The percentage the parallel renderer (`src/raytracer/src/renderer.rs`)
computes from the atomic counter: the thread that completes the `k`-th pixel
(zero-based, `prev_value = k`) reports `(k + 1) / iters * 100`. -/
def parallelProgressPercent (iters k : ℕ) : ℚ := ((k : ℚ) + 1) / (iters : ℚ) * 100

/-- A hit function honours the queried interval: any returned record's `t`
lies between the given bounds.  (Every repository primitive accepts `root`
only under `!(root < t_min || root > t_max)`.) -/
def HitRespects (p : Prim) : Prop :=
  ∀ r a b rec, p.hit r a b = some rec → a ≤ rec.t ∧ rec.t ≤ b

/-- Intersection coherence of a primitive for a fixed ray and fixed lower
bound, with canonical result `E p`: for every upper bound the primitive
reports exactly its canonical first contact when that contact is within
bound, and nothing otherwise; the canonical contact's point lies on the ray.
All repository primitives whose `hit` searches for the closest in-range
contact of a fixed geometry satisfy this for the appropriate `E`. -/
def CoherentAll (E : Prim → Option HitRecord) (ray : Ray) (t_min : ℚ)
    (ps : List Prim) : Prop :=
  ∀ p ∈ ps,
    (∀ b, p.hit ray t_min b =
      match E p with
      | some e => if e.t ≤ b then some e else none
      | none => none) ∧
    (∀ e, E p = some e → e.p = ray.at e.t)

/-- Geometric soundness of the stored boxes along a tree, for a fixed ray and
lower bound: whenever a node's slab test fails for some upper bound, none of
the primitives under that node has a canonical contact within that bound.
This is the property the BVH optimisation relies on (each box bounds its
subtree's geometry), stated as a hypothesis because primitives are abstract
here. -/
def TreeBoxSound (E : Prim → Option HitRecord) (ray : Ray) (t_min : ℚ) :
    HTree → Prop
  | .prim _ => True
  | .node l r bb =>
    (∀ b, AABB.hit bb ray t_min b = false →
      ∀ p ∈ (HTree.node l r bb).leaves, ∀ e, E p = some e → ¬ e.t ≤ b) ∧
    TreeBoxSound E ray t_min l ∧ TreeBoxSound E ray t_min r

/-- The sorting oracle that returns its input unchanged (one order the real
sort can produce; used to instantiate constructions concretely). -/
def idSorter : Sorter := fun l _ => ⟨l, List.Perm.refl l⟩

/-- Axis stream that always draws axis 0. -/
def zeroAxes : Axes := fun _ => 0

/-- First sphere of the C1 counterexample scene: center `(7,1,12)`, radius 5,
material 1; tangent to the ray below at `(3,4,12)`. -/
def ceSphere1 : Sphere := ⟨⟨7, 1, 12⟩, 5, 1⟩

/-- Second sphere of the C1 counterexample scene: center `(-1,7,12)`, radius
5, material 2; tangent to the same ray at the same point `(3,4,12)`. -/
def ceSphere2 : Sphere := ⟨⟨-1, 7, 12⟩, 5, 2⟩

/-- `Rc<dyn Hittable>` handle for `ceSphere1`. -/
def cePrim1 : Prim :=
  ⟨sphereHit ceSphere1, fun _ _ => some (sphereBoundingBox ceSphere1)⟩

/-- `Rc<dyn Hittable>` handle for `ceSphere2`. -/
def cePrim2 : Prim :=
  ⟨sphereHit ceSphere2, fun _ _ => some (sphereBoundingBox ceSphere2)⟩

/-- The ray of the C1 counterexample: origin at zero, direction `(3,4,12)`
(all components nonzero, squared length `169 = 13²`), tangent to both
spheres at `t = 1`. -/
def ceRay : Ray := ⟨⟨0, 0, 0⟩, ⟨3, 4, 12⟩, 0⟩

/-- The tree `BVHNode::new` builds from `[cePrim1, cePrim2]` when the axis
draw is 0: the comparator orders `cePrim2` (box min x = -6) before
`cePrim1` (box min x = 2), so the left child is the *second* list element. -/
def ceTree : HTree :=
  .node (.prim cePrim2) (.prim cePrim1)
    (AABB.surrounding_box (sphereBoundingBox ceSphere2) (sphereBoundingBox ceSphere1))

/-- Inner `Hittable` used to exhibit the `Translate::hit` defect: reports a
contact at `t = 2` with point `(1,2,3)` whenever `2` is inside the queried
interval. -/
def c7Inner : Ray → ℚ → ℚ → Option HitRecord := fun _ t_min t_max =>
  if t_min ≤ 2 ∧ 2 ≤ t_max then
    some { p := ⟨1, 2, 3⟩, normal := ⟨0, 0, 1⟩, mat := 3, t := 2, u := 0, v := 0,
           front_face := true }
  else none

/-- Ray used against the translated primitive. -/
def c7Ray : Ray := ⟨⟨5, 0, 0⟩, ⟨0, 0, 1⟩, 0⟩

/-- A convex boundary for the constant-medium evaluations: entered at
`t = 0`, left at `t = 1` (the first, `(-inf, inf)` query reports the entry
crossing; the follow-up query from just past it reports the exit). -/
def cmBoundary : HitFun := fun r a _ =>
  match a with
  | .negInf => some { p := r.at 0, normal := ⟨0, 0, 1⟩, mat := 0, t := 0,
                      u := 0, v := 0, front_face := true }
  | .finite _ => some { p := r.at 1, normal := ⟨0, 0, -1⟩, mat := 0, t := 1,
                        u := 0, v := 0, front_face := false }
  | .posInf => none

/-- Ray through the medium used for C6 (direction `(0,0,1)` of length 1). -/
def c6Ray : Ray := ⟨⟨0, 0, 0⟩, ⟨0, 0, 1⟩, 0⟩

/-- Ray through the medium used for C4 (direction `(1,0,0)`, aligned with
the medium's hard-coded record normal). -/
def c4Ray : Ray := ⟨⟨0, 0, 0⟩, ⟨1, 0, 0⟩, 0⟩

/-- A primitive with a bounding box everywhere (unit box at the origin) and
no intersections; used to instantiate construction results concretely. -/
def boxedPrim : Prim :=
  ⟨fun _ _ _ => none, fun _ _ => some ⟨⟨0, 0, 0⟩, ⟨1, 1, 1⟩⟩⟩

/-- A primitive reporting no bounding box at any time interval. -/
def boxlessPrim : Prim := ⟨fun _ _ _ => none, fun _ _ => none⟩

/-- Whether a construction outcome is the `Err` case (an error value in the
sense of the spec's error-handling design). -/
def BResult.isErr : BResult → Bool
  | .err _ => true
  | _ => false

/-- Whether a construction outcome is a successfully built node. -/
def BResult.isOk : BResult → Bool
  | .ok _ => true
  | _ => false

/-- Record at `t = 2` used by the C2 witness node's left child. -/
def c2RecLeft : HitRecord := ⟨⟨2, 2, 2⟩, ⟨0, 0, 1⟩, 4, 2, 0, 0, true⟩

/-- Record at `t = 1` used by the C2 witness node's right child. -/
def c2RecRight : HitRecord := ⟨⟨1, 1, 1⟩, ⟨0, 0, 1⟩, 5, 1, 0, 0, true⟩

/-- Left child primitive of the C2 witness: hits at `t = 2` when 2 is inside
the queried interval. -/
def c2PrimLeft : Prim :=
  ⟨fun _ a b => if a ≤ 2 ∧ 2 ≤ b then some c2RecLeft else none,
   fun _ _ => some ⟨⟨-10, -10, -10⟩, ⟨10, 10, 10⟩⟩⟩

/-- Right child primitive of the C2 witness: hits at `t = 1` when 1 is inside
the queried interval. -/
def c2PrimRight : Prim :=
  ⟨fun _ a b => if a ≤ 1 ∧ 1 ≤ b then some c2RecRight else none,
   fun _ _ => some ⟨⟨-10, -10, -10⟩, ⟨10, 10, 10⟩⟩⟩

/-- Box of the C2 witness node. -/
def c2Box : AABB := ⟨⟨-10, -10, -10⟩, ⟨10, 10, 10⟩⟩

/-- Ray of the C2 witness (all direction components nonzero). -/
def c2Ray : Ray := ⟨⟨0, 0, 0⟩, ⟨1, 1, 1⟩, 0⟩

/-- Unit box used by the C1 witness instance. -/
def c1UnitBox : AABB := ⟨⟨0, 0, 0⟩, ⟨1, 1, 1⟩⟩

/-- The tree `BVHNode::new` builds from the singleton `[boxedPrim]` (the
primitive is duplicated into both children). -/
def c1Tree : HTree :=
  .node (.prim boxedPrim) (.prim boxedPrim)
    (AABB.surrounding_box c1UnitBox c1UnitBox)

/-- The smaller quadratic root `(-half_b - sqrtd) / a` of `Sphere::hit`. -/
def sphereRoot1 (s : Sphere) (r : Ray) (sqrtd : ℚ) : ℚ :=
  (-((r.origin - s.center).dot r.direction) - sqrtd) / r.direction.length_squared

/-- The larger quadratic root `(-half_b + sqrtd) / a` of `Sphere::hit`. -/
def sphereRoot2 (s : Sphere) (r : Ray) (sqrtd : ℚ) : ℚ :=
  (-((r.origin - s.center).dot r.direction) + sqrtd) / r.direction.length_squared

theorem Vec3.neg_def (a : Vec3) : -a = ⟨-a.x, -a.y, -a.z⟩ := rfl

theorem Vec3.add_def (a b : Vec3) : a + b = ⟨a.x + b.x, a.y + b.y, a.z + b.z⟩ := rfl

theorem Vec3.sub_def (a b : Vec3) : a - b = ⟨a.x - b.x, a.y - b.y, a.z - b.z⟩ := rfl

theorem Vec3.get_zero (v : Vec3) : v.get 0 = v.x := rfl

theorem Vec3.get_one (v : Vec3) : v.get 1 = v.y := rfl

theorem Vec3.get_two (v : Vec3) : v.get 2 = v.z := rfl

theorem Vec3.dot_neg (a b : Vec3) : a.dot (-b) = -(a.dot b) := by
  simp only [Vec3.dot, Vec3.neg_def]
  ring

/-- Any record that passed through `set_face_normal` carries a normal whose
dot product with the orienting ray's direction is nonpositive. -/
theorem set_face_normal_dot_nonpos (rec : HitRecord) (r : Ray) (outward : Vec3) :
    r.direction.dot (rec.set_face_normal r outward).normal ≤ 0 := by
  simp only [HitRecord.set_face_normal]
  by_cases h : r.direction.dot outward < 0
  · simpa [h] using le_of_lt h
  · rw [if_neg h, Vec3.dot_neg]
    push_neg at h
    linarith

/-- C10: `BVHNode::new` takes the primitive vector by mutable reference but
immediately clones it, sorting and splitting only the clone at every
recursion level; the caller's vector is handed back unchanged — same
primitives, same order — whatever the outcome of the construction. -/
theorem C10_bvh_new_preserves_source (sorter : Sorter) (axes : Axes)
    (l : List Prim) (t0 t1 : ℚ) (n : ℕ) :
    (bvhNew sorter axes l t0 t1 n).2.1 = l := by
  unfold bvhNew
  match l with
  | [] => rw [newHelper]
  | [p] => rw [newHelper]
  | [p, q] =>
    rw [newHelper]
    cases box_compare p q (axes n) <;> rfl
  | p :: q :: s :: rest =>
    rw [newHelper]
    split
    · rfl
    · dsimp only
      split
      · split <;> rfl
      · rfl

/-- C7: the spec says `Translate::hit` maps the inner hit point back to world
space by adding the offset; the source instead overwrites the point with the
offset itself (`hit_rec.p = self.offset`).  At the concrete input below the
inner primitive reports point `(1,2,3)` at `t = 2` with material 3, the
offset is `(5,0,0)`, the claim requires point `(6,2,3)` (with `t` and
material preserved), and the code returns `(5,0,0)`. -/
theorem C7_translate_hit_point_defect :
    (translateHit c7Inner ⟨5, 0, 0⟩ c7Ray 0 10).map (fun rec => rec.p)
        = some (⟨5, 0, 0⟩ : Vec3)
    ∧ (c7Inner (Ray.new_with_time (c7Ray.origin - ⟨5, 0, 0⟩) c7Ray.direction c7Ray.time)
        0 10).map (fun rec => (rec.p + (⟨5, 0, 0⟩ : Vec3), rec.t, rec.mat))
        = some (⟨6, 2, 3⟩, 2, 3)
    ∧ ((⟨5, 0, 0⟩ : Vec3) ≠ ⟨6, 2, 3⟩) := by
  refine ⟨?_, ?_, ?_⟩
  · norm_num [translateHit, c7Inner, c7Ray, Ray.new_with_time,
      HitRecord.set_face_normal, Vec3.sub_def, Vec3.dot]
  · norm_num [c7Inner, c7Ray, Ray.new_with_time, Vec3.sub_def, Vec3.add_def]
  · simp only [ne_eq, Vec3.mk.injEq]
    norm_num

/-- C6: the spec's free-path draw is `-1/density * ln(u)`, a nonnegative
length; the source stores `+1.0/density` in `neg_inv_density` and multiplies
it by `log` *base 10* of the draw (its own TODO notes `ln` may have been
intended), so the computed `hit_distance` is nonpositive and the synthesized
contact lands at parameter `t = entry + hit_distance * |direction|`, at or
*before* the entry crossing.  Concretely: density 1, draw `u = 1/10`
(`log10 u = -1`), unit-length ray direction, boundary entered at `t = 0` and
left at `t = 1`: the claim demands no interaction (free path
`ln 10 ≈ 2.3` exceeds the distance 1 inside the boundary); the code instead
reports a scattering event at `t = -1`, outside the boundary and behind the
ray origin. -/
theorem C6_constant_medium_defect :
    (ConstantMedium.new cmBoundary 7 1).neg_inv_density = 1
    ∧ ((ConstantMedium.new cmBoundary 7 1).hit (-1) c6Ray (-5) 5).map
        (fun rec => rec.t) = some (-1)
    ∧ ((-1 : ℚ) < 0) := by
  refine ⟨?_, ?_, ?_⟩
  · norm_num [ConstantMedium.new]
  · norm_num [ConstantMedium.new, ConstantMedium.hit, cmBoundary, c6Ray,
      Vec3.length, Vec3.length_squared, ratSqrt, Ray.at, Vec3.smul, Vec3.add_def]
  · norm_num

/-- C4 counterexample: the constant-density medium synthesizes records with
the fixed normal `(1,0,0)` and never re-orients it; for a ray with direction
`(1,0,0)` the returned record has `dot(direction, normal) = 1 > 0`, refuting
the claim that every returned record's normal opposes the incoming ray. -/
theorem C4_counterexample_medium_normal :
    ((ConstantMedium.new cmBoundary 9 1).hit (-1) c4Ray (-5) 5).map
        (fun rec => c4Ray.direction.dot rec.normal) = some 1
    ∧ ¬ ((1 : ℚ) ≤ 0) := by
  refine ⟨?_, ?_⟩
  · norm_num [ConstantMedium.new, ConstantMedium.hit, cmBoundary, c4Ray,
      Vec3.length, Vec3.length_squared, ratSqrt, Ray.at, Vec3.smul, Vec3.add_def,
      Vec3.dot]
  · norm_num

/-- C4 (amended): every record produced through `set_face_normal` — in
particular every record returned by `Sphere::hit` and every record returned
by `Translate::hit` — satisfies `dot(ray.direction, record.normal) ≤ 0`; the
constant-medium wrapper's synthesized records are the exception
(see the counterexample theorem). -/
theorem C4_normal_opposes_ray :
    (∀ (rec : HitRecord) (r : Ray) (outward : Vec3),
      r.direction.dot (rec.set_face_normal r outward).normal ≤ 0)
    ∧ (∀ (s : Sphere) (r : Ray) (t_min t_max sqrtd : ℚ) (rec : HitRecord),
        sphereHitCore s r t_min t_max sqrtd = some rec →
        r.direction.dot rec.normal ≤ 0)
    ∧ (∀ (inner : Ray → ℚ → ℚ → Option HitRecord) (offset : Vec3) (r : Ray)
        (t_min t_max : ℚ) (rec : HitRecord),
        translateHit inner offset r t_min t_max = some rec →
        r.direction.dot rec.normal ≤ 0) := by
  refine ⟨set_face_normal_dot_nonpos, ?_, ?_⟩
  · intro s r t_min t_max sqrtd rec h
    unfold sphereHitCore at h
    dsimp only at h
    split at h
    · exact absurd h (by simp)
    · rw [Option.map_eq_some'] at h
      obtain ⟨root, _, hrec⟩ := h
      rw [← hrec]
      exact set_face_normal_dot_nonpos _ _ _
  · intro inner offset r t_min t_max rec h
    unfold translateHit at h
    rw [Option.map_eq_some'] at h
    obtain ⟨inrec, _, hrec⟩ := h
    rw [← hrec]
    exact set_face_normal_dot_nonpos _ _ _

/-- Witness for `C4_normal_opposes_ray`: the unit sphere at `(0,0,-2)` hit
head-on from the origin returns the record below, whose normal opposes the
ray. -/
theorem C4_witness :
    sphereHitCore ⟨⟨0, 0, -2⟩, 1, 0⟩ ⟨⟨0, 0, 0⟩, ⟨0, 0, -1⟩, 0⟩ 0 5 1
        = some ⟨⟨0, 0, -1⟩, ⟨0, 0, 1⟩, 0, 1, 0, 0, true⟩
    ∧ (⟨⟨0, 0, 0⟩, ⟨0, 0, -1⟩, 0⟩ : Ray).direction.dot
        (⟨⟨0, 0, -1⟩, ⟨0, 0, 1⟩, 0, 1, 0, 0, true⟩ : HitRecord).normal ≤ 0 := by
  have h : sphereHitCore ⟨⟨0, 0, -2⟩, 1, 0⟩ ⟨⟨0, 0, 0⟩, ⟨0, 0, -1⟩, 0⟩ 0 5 1
      = some ⟨⟨0, 0, -1⟩, ⟨0, 0, 1⟩, 0, 1, 0, 0, true⟩ := by
    norm_num [sphereHitCore, sphereUV, HitRecord.set_face_normal, Ray.at,
      Vec3.smul, Vec3.add_def, Vec3.sub_def, Vec3.sdiv, Vec3.dot,
      Vec3.length_squared]
  exact ⟨h, C4_normal_opposes_ray.2.1 ⟨⟨0, 0, -2⟩, 1, 0⟩ ⟨⟨0, 0, 0⟩, ⟨0, 0, -1⟩, 0⟩
    0 5 1 _ h⟩

theorem ray_at_dist_sq (r : Ray) (t : ℚ) :
    (r.at t - r.origin).length_squared = t ^ 2 * r.direction.length_squared := by
  simp only [Ray.at, Vec3.smul, Vec3.add_def, Vec3.sub_def, Vec3.length_squared]
  ring

/-- C5 counterexample: the claim's interval is the open `(t_min, t_max)`, but
the source accepts `root` unless `root < t_min || root > t_max`, i.e. the
closed interval.  The unit sphere at `(0,0,-2)` probed from the origin along
`(0,0,-1)` with `(t_min, t_max) = (0, 1)` has roots 1 and 3; the code
returns the contact at `t = 1 = t_max`, which the open interval excludes. -/
theorem C5_counterexample_open_interval :
    (sphereHit ⟨⟨0, 0, -2⟩, 1, 0⟩ ⟨⟨0, 0, 0⟩, ⟨0, 0, -1⟩, 0⟩ 0 1).map
        (fun rec => rec.t) = some 1
    ∧ ¬ ((1 : ℚ) < 1) := by
  refine ⟨?_, by norm_num⟩
  norm_num [sphereHit, sphereHitCore, sphereDiscriminant, ratSqrt, sphereUV,
    HitRecord.set_face_normal, Ray.at, Vec3.smul, Vec3.add_def, Vec3.sub_def,
    Vec3.sdiv, Vec3.dot, Vec3.length_squared]

/-- C5 (amended): `Sphere::hit` returns none on a negative discriminant;
any returned record's `t` is one of the two quadratic roots, lies in the
*closed* interval `[t_min, t_max]`, its point lies on the ray, and it carries
the sphere's material; the smaller root is preferred whenever it is in
range, with fallback to the larger; and when both roots are in range (and
`t_min ≥ 0`, direction nonzero) the returned root is the smaller one, which
is the contact closest to the ray origin (squared distances compared). -/
theorem C5_sphere_hit_characterization (s : Sphere) (r : Ray) (t_min t_max : ℚ) :
    (∀ sqrtd, sphereDiscriminant s r < 0 → sphereHitCore s r t_min t_max sqrtd = none)
    ∧ (∀ sqrtd rec, sphereHitCore s r t_min t_max sqrtd = some rec →
        (t_min ≤ rec.t ∧ rec.t ≤ t_max)
        ∧ (rec.t = sphereRoot1 s r sqrtd ∨ rec.t = sphereRoot2 s r sqrtd)
        ∧ rec.p = r.at rec.t
        ∧ rec.mat = s.material)
    ∧ (∀ sqrtd, sqrtd * sqrtd = sphereDiscriminant s r → 0 ≤ sqrtd →
        (¬ (sphereRoot1 s r sqrtd < t_min ∨ sphereRoot1 s r sqrtd > t_max) →
          (sphereHitCore s r t_min t_max sqrtd).map (fun rec => rec.t)
            = some (sphereRoot1 s r sqrtd))
        ∧ ((sphereRoot1 s r sqrtd < t_min ∨ sphereRoot1 s r sqrtd > t_max) →
          ¬ (sphereRoot2 s r sqrtd < t_min ∨ sphereRoot2 s r sqrtd > t_max) →
          (sphereHitCore s r t_min t_max sqrtd).map (fun rec => rec.t)
            = some (sphereRoot2 s r sqrtd))
        ∧ (¬ (sphereRoot1 s r sqrtd < t_min ∨ sphereRoot1 s r sqrtd > t_max) →
          ¬ (sphereRoot2 s r sqrtd < t_min ∨ sphereRoot2 s r sqrtd > t_max) →
          0 ≤ t_min → 0 < r.direction.length_squared →
          sphereRoot1 s r sqrtd ≤ sphereRoot2 s r sqrtd
          ∧ (sphereHitCore s r t_min t_max sqrtd).map (fun rec => rec.t)
              = some (sphereRoot1 s r sqrtd)
          ∧ (r.at (sphereRoot1 s r sqrtd) - r.origin).length_squared
              ≤ (r.at (sphereRoot2 s r sqrtd) - r.origin).length_squared)) := by
  have hdisc :
      ∀ sqrtd : ℚ, sqrtd * sqrtd = sphereDiscriminant s r →
        ¬ (sphereDiscriminant s r < 0) := by
    intro sqrtd hsq
    rw [← hsq]
    push_neg
    exact mul_self_nonneg sqrtd
  refine ⟨?_, ?_, ?_⟩
  · intro sqrtd hneg
    unfold sphereHitCore
    unfold sphereDiscriminant at hneg
    dsimp only at hneg ⊢
    rw [if_pos hneg]
  · intro sqrtd rec h
    unfold sphereHitCore at h
    dsimp only at h
    split at h
    · exact absurd h (by simp)
    · rw [Option.map_eq_some'] at h
      obtain ⟨root, hroot, hrec⟩ := h
      have hrt : rec.t = root := by rw [← hrec]; rfl
      have hrp : rec.p = r.at root := by rw [← hrec]; rfl
      have hrm : rec.mat = s.material := by rw [← hrec]; rfl
      split at hroot
      · split at hroot
        · exact absurd hroot (by simp)
        · next h1 h2 =>
          push_neg at h2
          rw [Option.some_inj] at hroot
          refine ⟨⟨by rw [hrt, ← hroot]; exact h2.1, by rw [hrt, ← hroot]; exact h2.2⟩,
            Or.inr (by rw [hrt, ← hroot]; rfl), by rw [hrp, hrt], hrm⟩
      · next h1 =>
        push_neg at h1
        rw [Option.some_inj] at hroot
        refine ⟨⟨by rw [hrt, ← hroot]; exact h1.1, by rw [hrt, ← hroot]; exact h1.2⟩,
          Or.inl (by rw [hrt, ← hroot]; rfl), by rw [hrp, hrt], hrm⟩
  · intro sqrtd hsq hnn
    have hnd := hdisc sqrtd hsq
    have hnd' : ¬ ((r.origin - s.center).dot r.direction *
        (r.origin - s.center).dot r.direction -
        r.direction.length_squared *
          ((r.origin - s.center).length_squared - s.radius * s.radius) < 0) := by
      unfold sphereDiscriminant at hnd
      exact hnd
    refine ⟨?_, ?_, ?_⟩
    · intro h1
      unfold sphereHitCore
      dsimp only
      unfold sphereRoot1 at h1 ⊢
      rw [if_neg hnd', if_neg h1]
      rfl
    · intro h1 h2
      unfold sphereHitCore
      dsimp only
      unfold sphereRoot1 at h1
      unfold sphereRoot2 at h2 ⊢
      rw [if_neg hnd', if_pos h1, if_neg h2]
      rfl
    · intro h1 h2 htm ha
      have hle : sphereRoot1 s r sqrtd ≤ sphereRoot2 s r sqrtd := by
        unfold sphereRoot1 sphereRoot2
        rw [div_le_div_iff_of_pos_right ha]
        linarith
      have h1c := h1
      push_neg at h1c
      refine ⟨hle, ?_, ?_⟩
      · unfold sphereHitCore
        dsimp only
        unfold sphereRoot1 at h1 ⊢
        rw [if_neg hnd', if_neg h1]
        rfl
      · rw [ray_at_dist_sq, ray_at_dist_sq]
        have h1' : 0 ≤ sphereRoot1 s r sqrtd := le_trans htm h1c.1
        have hsqle : sphereRoot1 s r sqrtd ^ 2 ≤ sphereRoot2 s r sqrtd ^ 2 :=
          pow_le_pow_left₀ h1' hle 2
        exact mul_le_mul_of_nonneg_right hsqle (le_of_lt ha)

/-- Witness for `C5_sphere_hit_characterization`: the unit sphere at
`(0,0,-2)` probed from the origin along `(0,0,-1)` over `[0, 5]` has both
roots (1 and 3) in range and yields the smaller root. -/
theorem C5_witness :
    (sphereHitCore ⟨⟨0, 0, -2⟩, 1, 0⟩ ⟨⟨0, 0, 0⟩, ⟨0, 0, -1⟩, 0⟩ 0 5 1).map
        (fun rec => rec.t)
      = some (sphereRoot1 ⟨⟨0, 0, -2⟩, 1, 0⟩ ⟨⟨0, 0, 0⟩, ⟨0, 0, -1⟩, 0⟩ 1)
    ∧ sphereRoot1 ⟨⟨0, 0, -2⟩, 1, 0⟩ ⟨⟨0, 0, 0⟩, ⟨0, 0, -1⟩, 0⟩ 1
        ≤ sphereRoot2 ⟨⟨0, 0, -2⟩, 1, 0⟩ ⟨⟨0, 0, 0⟩, ⟨0, 0, -1⟩, 0⟩ 1 := by
  have h := ((C5_sphere_hit_characterization ⟨⟨0, 0, -2⟩, 1, 0⟩
      ⟨⟨0, 0, 0⟩, ⟨0, 0, -1⟩, 0⟩ 0 5).2.2 1
    (by norm_num [sphereDiscriminant, Vec3.dot, Vec3.sub_def, Vec3.length_squared])
    (by norm_num)).2.2
    (by norm_num [sphereRoot1, Vec3.dot, Vec3.sub_def, Vec3.length_squared])
    (by norm_num [sphereRoot2, Vec3.dot, Vec3.sub_def, Vec3.length_squared])
    (by norm_num)
    (by norm_num [Vec3.length_squared])
  exact ⟨h.2.1, h.1⟩

/-- C3: `ray_color` returns black at depth 0 for every scene; at positive
depth it queries the world with `t_min = 0.001` and `t_max = INFINITY`,
returns the background color on a miss, and on a hit returns
`emitted + attenuation * ray_color(scattered, depth - 1)` when the material
scatters and the emission alone otherwise. -/
theorem C3_ray_color_spec (mats : MaterialArena) (world : HitFun) (bg : Vec3)
    (r : Ray) :
    rayColor mats world bg r 0 = ⟨0, 0, 0⟩
    ∧ (∀ d, rayColor mats world bg r (d + 1) =
        match world r (.finite (1 / 1000)) .posInf with
        | some hit_rec =>
          let emitted := mats.emitted hit_rec.mat hit_rec.u hit_rec.v hit_rec.p
          match mats.scatter hit_rec.mat r hit_rec with
          | some (scattered, attenuation) =>
            emitted +
              ⟨attenuation.x * (rayColor mats world bg scattered d).x,
               attenuation.y * (rayColor mats world bg scattered d).y,
               attenuation.z * (rayColor mats world bg scattered d).z⟩
          | none => emitted
        | none => bg)
    ∧ (∀ d hit_rec, world r (.finite (1 / 1000)) .posInf = some hit_rec →
        mats.scatter hit_rec.mat r hit_rec = none →
        rayColor mats world bg r (d + 1)
          = mats.emitted hit_rec.mat hit_rec.u hit_rec.v hit_rec.p)
    ∧ (∀ d, world r (.finite (1 / 1000)) .posInf = none →
        rayColor mats world bg r (d + 1) = bg) := by
  refine ⟨rfl, fun d => rfl, ?_, ?_⟩
  · intro d hit_rec hw hs
    unfold rayColor
    rw [hw]
    dsimp only
    rw [hs]
  · intro d hw
    unfold rayColor
    rw [hw]

/-- Witness for `C3_ray_color_spec`: a world with no hits returns the
background color at positive depth. -/
theorem C3_witness :
    rayColor ⟨fun _ _ _ => none, fun _ _ _ _ => ⟨0, 0, 0⟩⟩ (fun _ _ _ => none)
      ⟨1, 2, 3⟩ ⟨⟨0, 0, 0⟩, ⟨0, 0, 1⟩, 0⟩ 3 = ⟨1, 2, 3⟩ :=
  (C3_ray_color_spec ⟨fun _ _ _ => none, fun _ _ _ _ => ⟨0, 0, 0⟩⟩
    (fun _ _ _ => none) ⟨1, 2, 3⟩ ⟨⟨0, 0, 0⟩, ⟨0, 0, 1⟩, 0⟩).2.2.2 2 rfl

/-- C8 counterexample: for a 2×2 render (square, so no pixel access panics
and all four callbacks fire) the reported sequence is `[0, 50, 0, 50]`,
which drops from 50 back to 0 at the row boundary — not monotonically
increasing.  (For `width = 3, height = 1` the trace is `[0]` and the loop
then panics in `get_pixel_mut`: the claim's `0..100` range is never
violated, but the render dies.) -/
theorem C8_counterexample_progress :
    renderProgressList 2 2 = [0, 50, 0, 50]
    ∧ ¬ ((50 : ℚ) ≤ 0)
    ∧ renderProgressList 3 1 = [0]
    ∧ renderPanics 3 1 = true := by
  refine ⟨?_, by norm_num, ?_, by rfl⟩ <;>
    simp [renderProgressList, List.range_succ, List.takeWhile_cons] <;>
    norm_num

/-- C8 (amended): every callback the sequential renderer actually invokes
carries `(i % width) / height * 100` for its iteration `i`, and every such
value lies in `[0, 100)` — an out-of-range value would need
`i % width ≥ height`, which panics `get_pixel_mut` earlier in the same
iteration, before the callback; indeed every non-square render panics
mid-loop, while square renders complete.  The sequence is monotone only
within one row (fixed `i / width`) and resets at row boundaries.  The
parallel renderer's percentage, computed from the atomic completed-pixel
counter, lies in `(0, 100]` and is monotone in the counter value (the
cross-thread invocation order itself is unsynchronized). -/
theorem C8_progress_characterization :
    (∀ w h i : ℕ, i < (renderProgressList w h).length →
      (renderProgressList w h)[i]? = some (((i % w : ℕ) : ℚ) / (h : ℚ) * 100))
    ∧ (∀ w h : ℕ, ∀ x ∈ renderProgressList w h, 0 ≤ x ∧ x < 100)
    ∧ (∀ w h i j : ℕ, i ≤ j → i / w = j / w →
        ((i % w : ℕ) : ℚ) / (h : ℚ) * 100 ≤ ((j % w : ℕ) : ℚ) / (h : ℚ) * 100)
    ∧ (∀ w h : ℕ, 1 ≤ w → 1 ≤ h → w ≠ h → renderPanics w h = true)
    ∧ (∀ w : ℕ, renderPanics w w = false)
    ∧ (∀ iters k : ℕ, k < iters →
        0 < parallelProgressPercent iters k ∧ parallelProgressPercent iters k ≤ 100)
    ∧ (∀ iters k k' : ℕ, k ≤ k' →
        parallelProgressPercent iters k ≤ parallelProgressPercent iters k') := by
  have hdiv : ∀ (a b c : ℚ), a ≤ b → 0 ≤ c → a / c * 100 ≤ b / c * 100 := by
    intro a b c hab hc
    rcases eq_or_lt_of_le hc with h0 | hpos
    · rw [← h0]
      simp
    · exact mul_le_mul_of_nonneg_right
        ((div_le_div_iff_of_pos_right hpos).mpr hab) (by norm_num)
  refine ⟨?_, ?_, ?_, ?_, ?_, ?_, ?_⟩
  · intro w h i hi
    unfold renderProgressList at hi ⊢
    rw [List.length_map] at hi
    rw [List.getElem?_map]
    have hlen : ((List.range (w * h)).takeWhile
        (fun i => decide (i / w < w ∧ i % w < h))).length ≤ w * h := by
      have := (List.takeWhile_prefix
        (fun i => decide (i / w < w ∧ i % w < h))
        (l := List.range (w * h))).length_le
      simpa using this
    obtain ⟨t, ht⟩ := List.takeWhile_prefix
      (fun i => decide (i / w < w ∧ i % w < h)) (l := List.range (w * h))
    have h2 : (List.range (w * h))[i]? = some i :=
      List.getElem?_range (lt_of_lt_of_le hi hlen)
    rw [← ht, List.getElem?_append, if_pos hi] at h2
    rw [h2]
    rfl
  · intro w h x hx
    unfold renderProgressList at hx
    rw [List.mem_map] at hx
    obtain ⟨i, hi, rfl⟩ := hx
    have hp := List.mem_takeWhile_imp hi
    rw [decide_eq_true_eq] at hp
    obtain ⟨hx1, hy1⟩ := hp
    have hh : 0 < h := lt_of_le_of_lt (Nat.zero_le _) hy1
    constructor
    · have := div_nonneg (Nat.cast_nonneg (α := ℚ) (i % w))
        (Nat.cast_nonneg (α := ℚ) h)
      linarith
    · have hlt : ((i % w : ℕ) : ℚ) / (h : ℚ) < 1 := by
        rw [div_lt_one (by exact_mod_cast hh)]
        exact_mod_cast hy1
      calc ((i % w : ℕ) : ℚ) / (h : ℚ) * 100 < 1 * 100 :=
            mul_lt_mul_of_pos_right hlt (by norm_num)
        _ = 100 := by norm_num
  · intro w h i j hij hq
    have hmod : i % w ≤ j % w := by
      have h1 : w * (i / w) + i % w = i := Nat.div_add_mod i w
      have h2 : w * (j / w) + j % w = j := Nat.div_add_mod j w
      rw [hq] at h1
      omega
    apply hdiv
    · exact_mod_cast hmod
    · exact Nat.cast_nonneg h
  · intro w h hw hh hne
    unfold renderPanics
    rw [List.any_eq_true]
    rcases Nat.lt_or_ge w h with hlt | hge
    · refine ⟨w * w, ?_, ?_⟩
      · rw [List.mem_range]
        nlinarith
      · rw [decide_eq_true_eq]
        intro hcon
        rw [Nat.mul_div_cancel_left w (by omega : 0 < w)] at hcon
        omega
    · have hlt : h < w := by omega
      refine ⟨h, ?_, ?_⟩
      · rw [List.mem_range]
        nlinarith
      · rw [decide_eq_true_eq]
        intro hcon
        rw [Nat.mod_eq_of_lt hlt] at hcon
        omega
  · intro w
    unfold renderPanics
    rw [List.any_eq_false]
    intro i hi
    rw [List.mem_range] at hi
    simp only [decide_eq_true_eq, Decidable.not_not]
    rcases Nat.eq_zero_or_pos w with hw0 | hw
    · subst hw0
      exact absurd hi (by omega)
    · exact ⟨by rw [Nat.div_lt_iff_lt_mul hw]; exact hi, Nat.mod_lt i hw⟩
  · intro iters k hk
    have hiters : (0 : ℚ) < (iters : ℚ) := by
      exact_mod_cast Nat.pos_of_ne_zero (by omega)
    constructor
    · unfold parallelProgressPercent
      positivity
    · unfold parallelProgressPercent
      have hle : ((k : ℚ) + 1) / (iters : ℚ) ≤ 1 := by
        rw [div_le_one hiters]
        exact_mod_cast hk
      calc ((k : ℚ) + 1) / (iters : ℚ) * 100 ≤ 1 * 100 :=
            mul_le_mul_of_nonneg_right hle (by norm_num)
        _ = 100 := by norm_num
  · intro iters k k' hk
    unfold parallelProgressPercent
    apply hdiv
    · exact_mod_cast Nat.succ_le_succ hk
    · exact Nat.cast_nonneg iters

/-- Witness for `C8_progress_characterization`: the second callback of a 2×2
render reports `(1 % 2) / 2 * 100`. -/
theorem C8_witness :
    (renderProgressList 2 2)[1]? = some (((1 % 2 : ℕ) : ℚ) / (2 : ℚ) * 100) :=
  C8_progress_characterization.1 2 2 1 (by decide)

/-- Every successfully built value of `new_helper` is an internal node (the
`BVHNode` struct), whose `bounding_box` therefore answers its stored box. -/
theorem newHelper_ok_node (sorter : Sorter) (axes : Axes) (t0 t1 : ℚ)
    (l : List Prim) (n : ℕ) (t : HTree)
    (h : (newHelper sorter axes l t0 t1 n).1 = .ok t) :
    ∃ lt rt bb, t = .node lt rt bb := by
  match l with
  | [] =>
    rw [newHelper] at h
    exact absurd h (by simp)
  | [p] =>
    rw [newHelper] at h
    dsimp only at h
    split at h
    · injection h with h'
      exact ⟨_, _, _, h'.symm⟩
    · exact absurd h (by simp)
  | [p, q] =>
    rw [newHelper] at h
    dsimp only at h
    split at h
    · exact absurd h (by simp)
    · dsimp only at h
      split at h
      · injection h with h'
        exact ⟨_, _, _, h'.symm⟩
      · exact absurd h (by simp)
  | p :: q :: s :: rest =>
    rw [newHelper] at h
    split at h
    · exact absurd h (by simp)
    · dsimp only at h
      split at h
      · split at h
        · split at h
          · injection h with h'
            exact ⟨_, _, _, h'.symm⟩
          · exact absurd h (by simp)
        · next hne => exact absurd h (hne _)
      · next hne => exact absurd h (hne _)

/-- When every primitive carries a bounding box both at `(0,0)` (consulted by
the sort comparator) and at the requested interval, `new_helper` on a
nonempty slice builds a node. -/
theorem newHelper_ok_of_boxes :
    ∀ (N : ℕ) (sorter : Sorter) (axes : Axes) (t0 t1 : ℚ) (l : List Prim),
    l.length ≤ N → l ≠ [] →
    (∀ p ∈ l, (p.box 0 0).isSome = true) →
    (∀ p ∈ l, (p.box t0 t1).isSome = true) →
    ∀ n, ∃ t, (newHelper sorter axes l t0 t1 n).1 = BResult.ok t := by
  intro N
  induction N with
  | zero =>
    intro sorter axes t0 t1 l hlen hne hb0 hbt n
    match l with
    | [] => exact absurd rfl hne
    | p :: ps => simp at hlen
  | succ N ih =>
    intro sorter axes t0 t1 l hlen hne hb0 hbt n
    match l with
    | [] => exact absurd rfl hne
    | [p] =>
      rw [newHelper]
      dsimp only
      obtain ⟨bb, hbb⟩ := Option.isSome_iff_exists.mp (hbt p (by simp))
      rw [hbb]
      exact ⟨_, rfl⟩
    | [p, q] =>
      rw [newHelper]
      dsimp only
      obtain ⟨ab, hab⟩ := Option.isSome_iff_exists.mp (hb0 p (by simp))
      obtain ⟨bb, hbb⟩ := Option.isSome_iff_exists.mp (hb0 q (by simp))
      obtain ⟨pb, hpb⟩ := Option.isSome_iff_exists.mp (hbt p (by simp))
      obtain ⟨qb, hqb⟩ := Option.isSome_iff_exists.mp (hbt q (by simp))
      by_cases hc : ab.minimum.get (axes n) ≤ bb.minimum.get (axes n)
      · have hcmp : box_compare p q (axes n) = some .lt := by
          unfold box_compare
          rw [hab, hbb]
          simp [hc]
        rw [hcmp]
        simp only [reduceCtorEq, reduceIte]
        rw [hpb, hqb]
        exact ⟨_, rfl⟩
      · have hcmp : box_compare p q (axes n) = some .gt := by
          unfold box_compare
          rw [hab, hbb]
          simp [hc]
        rw [hcmp]
        simp only [reduceCtorEq, reduceIte]
        rw [hqb, hpb]
        exact ⟨_, rfl⟩
    | p :: q :: s :: rest =>
      rw [newHelper]
      have hlen3 : rest.length + 3 ≤ N + 1 := by
        simp only [List.length_cons] at hlen
        omega
      have hany : ((p :: q :: s :: rest).any fun o => (o.box 0 0).isNone) = false := by
        rw [List.any_eq_false]
        intro o ho
        have h1 := hb0 o ho
        cases hcase : o.box 0 0
        · rw [hcase] at h1
          exact absurd h1 (by simp)
        · simp
      rw [if_neg (by rw [hany]; exact Bool.false_ne_true)]
      dsimp only
      have hperm := (sorter (p :: q :: s :: rest) (axes n)).2
      have hslen : ((sorter (p :: q :: s :: rest) (axes n)).1).length
          = (p :: q :: s :: rest).length := hperm.length_eq
      have hmem : ∀ o ∈ (sorter (p :: q :: s :: rest) (axes n)).1,
          o ∈ p :: q :: s :: rest := fun o ho => hperm.mem_iff.mp ho
      have hlh := List.take_subset ((p :: q :: s :: rest).length / 2)
        ((sorter (p :: q :: s :: rest) (axes n)).1)
      have hrh := List.drop_subset ((p :: q :: s :: rest).length / 2)
        ((sorter (p :: q :: s :: rest) (axes n)).1)
      obtain ⟨lt, hlt⟩ := ih sorter axes t0 t1
        (((sorter (p :: q :: s :: rest) (axes n)).1).take
          ((p :: q :: s :: rest).length / 2))
        (by rw [List.length_take, hslen]; simp only [List.length_cons]; omega)
        (by
          apply List.ne_nil_of_length_pos
          rw [List.length_take, hslen]
          simp only [List.length_cons]
          omega)
        (fun o ho => hb0 o (hmem o (hlh ho)))
        (fun o ho => hbt o (hmem o (hlh ho)))
        (n + 1)
      obtain ⟨rt, hrt⟩ := ih sorter axes t0 t1
        (((sorter (p :: q :: s :: rest) (axes n)).1).drop
          ((p :: q :: s :: rest).length / 2))
        (by rw [List.length_drop, hslen]; simp only [List.length_cons]; omega)
        (by
          apply List.ne_nil_of_length_pos
          rw [List.length_drop, hslen]
          simp only [List.length_cons]
          omega)
        (fun o ho => hb0 o (hmem o (hrh ho)))
        (fun o ho => hbt o (hmem o (hrh ho)))
        ((newHelper sorter axes
          (((sorter (p :: q :: s :: rest) (axes n)).1).take
            ((p :: q :: s :: rest).length / 2)) t0 t1 (n + 1)).2.2)
      rw [hlt]
      dsimp only
      rw [hrt]
      dsimp only
      obtain ⟨lt1, lt2, ltb, rfl⟩ := newHelper_ok_node _ _ _ _ _ _ _ hlt
      obtain ⟨rt1, rt2, rtb, rfl⟩ := newHelper_ok_node _ _ _ _ _ _ _ hrt
      exact ⟨_, rfl⟩

/-- When every primitive has a `(0,0)` box (so no comparator panics) but some
primitive lacks a box at the requested interval, `new_helper` surfaces the
constructor's `Err`. -/
theorem newHelper_err_of_missing_box :
    ∀ (N : ℕ) (sorter : Sorter) (axes : Axes) (t0 t1 : ℚ) (l : List Prim),
    l.length ≤ N → l ≠ [] →
    (∀ p ∈ l, (p.box 0 0).isSome = true) →
    (∃ p ∈ l, p.box t0 t1 = none) →
    ∀ n, (newHelper sorter axes l t0 t1 n).1
      = BResult.err ("No bounding box in BVHNode constructor.\n") := by
  intro N
  induction N with
  | zero =>
    intro sorter axes t0 t1 l hlen hne hb0 hmiss n
    match l with
    | [] => exact absurd rfl hne
    | p :: ps => simp at hlen
  | succ N ih =>
    intro sorter axes t0 t1 l hlen hne hb0 hmiss n
    match l with
    | [] => exact absurd rfl hne
    | [p] =>
      obtain ⟨m, hmm, hmn⟩ := hmiss
      rw [List.mem_singleton] at hmm
      subst hmm
      rw [newHelper]
      dsimp only
      rw [hmn]
    | [p, q] =>
      obtain ⟨ab, hab⟩ := Option.isSome_iff_exists.mp (hb0 p (by simp))
      obtain ⟨bb, hbb⟩ := Option.isSome_iff_exists.mp (hb0 q (by simp))
      rw [newHelper]
      dsimp only
      obtain ⟨m, hmm, hmn⟩ := hmiss
      have hcmp : ∃ ord, box_compare p q (axes n) = some ord := by
        unfold box_compare
        rw [hab, hbb]
        exact ⟨_, rfl⟩
      obtain ⟨ord, hord⟩ := hcmp
      rw [hord]
      dsimp only
      rcases List.mem_pair.mp hmm with hmp | hmq
      · subst hmp
        by_cases hord2 : ord = Ordering.lt
        · rw [if_pos hord2]
          dsimp only
          rw [hmn]
        · rw [if_neg hord2]
          dsimp only
          cases hqb : q.box t0 t1
          · rfl
          · rw [hmn]
      · subst hmq
        by_cases hord2 : ord = Ordering.lt
        · rw [if_pos hord2]
          dsimp only
          cases hpb : p.box t0 t1
          · rfl
          · rw [hmn]
        · rw [if_neg hord2]
          dsimp only
          rw [hmn]
    | p :: q :: s :: rest =>
      rw [newHelper]
      have hany : ((p :: q :: s :: rest).any fun o => (o.box 0 0).isNone) = false := by
        rw [List.any_eq_false]
        intro o ho
        have h1 := hb0 o ho
        cases hcase : o.box 0 0
        · rw [hcase] at h1
          exact absurd h1 (by simp)
        · simp
      rw [if_neg (by rw [hany]; exact Bool.false_ne_true)]
      dsimp only
      have hperm := (sorter (p :: q :: s :: rest) (axes n)).2
      have hslen : ((sorter (p :: q :: s :: rest) (axes n)).1).length
          = (p :: q :: s :: rest).length := hperm.length_eq
      have hmem : ∀ o ∈ (sorter (p :: q :: s :: rest) (axes n)).1,
          o ∈ p :: q :: s :: rest := fun o ho => hperm.mem_iff.mp ho
      have hlh := List.take_subset ((p :: q :: s :: rest).length / 2)
        ((sorter (p :: q :: s :: rest) (axes n)).1)
      have hrh := List.drop_subset ((p :: q :: s :: rest).length / 2)
        ((sorter (p :: q :: s :: rest) (axes n)).1)
      have hlentake : (((sorter (p :: q :: s :: rest) (axes n)).1).take
          ((p :: q :: s :: rest).length / 2)).length ≤ N ∧
          0 < (((sorter (p :: q :: s :: rest) (axes n)).1).take
          ((p :: q :: s :: rest).length / 2)).length := by
        rw [List.length_take, hslen]
        simp only [List.length_cons] at hlen ⊢
        constructor
        · omega
        · omega
      have hlendrop : (((sorter (p :: q :: s :: rest) (axes n)).1).drop
          ((p :: q :: s :: rest).length / 2)).length ≤ N ∧
          0 < (((sorter (p :: q :: s :: rest) (axes n)).1).drop
          ((p :: q :: s :: rest).length / 2)).length := by
        rw [List.length_drop, hslen]
        simp only [List.length_cons] at hlen ⊢
        constructor
        · omega
        · omega
      obtain ⟨m, hmm, hmn⟩ := hmiss
      have hmsorted : m ∈ (sorter (p :: q :: s :: rest) (axes n)).1 :=
        hperm.mem_iff.mpr hmm
      rw [← List.take_append_drop ((p :: q :: s :: rest).length / 2)
        ((sorter (p :: q :: s :: rest) (axes n)).1)] at hmsorted
      rcases List.mem_append.mp hmsorted with hmtake | hmdrop
      · have hLerr := ih sorter axes t0 t1
          (((sorter (p :: q :: s :: rest) (axes n)).1).take
            ((p :: q :: s :: rest).length / 2))
          hlentake.1
          (List.ne_nil_of_length_pos hlentake.2)
          (fun o ho => hb0 o (hmem o (hlh ho)))
          ⟨m, hmtake, hmn⟩
          (n + 1)
        rw [hLerr]
      · by_cases hL : ∃ o ∈ (((sorter (p :: q :: s :: rest) (axes n)).1).take
            ((p :: q :: s :: rest).length / 2)), o.box t0 t1 = none
        · have hLerr := ih sorter axes t0 t1
            (((sorter (p :: q :: s :: rest) (axes n)).1).take
              ((p :: q :: s :: rest).length / 2))
            hlentake.1
            (List.ne_nil_of_length_pos hlentake.2)
            (fun o ho => hb0 o (hmem o (hlh ho)))
            hL
            (n + 1)
          rw [hLerr]
        · push_neg at hL
          obtain ⟨lt, hlt⟩ := newHelper_ok_of_boxes N sorter axes t0 t1
            (((sorter (p :: q :: s :: rest) (axes n)).1).take
              ((p :: q :: s :: rest).length / 2))
            hlentake.1
            (List.ne_nil_of_length_pos hlentake.2)
            (fun o ho => hb0 o (hmem o (hlh ho)))
            (fun o ho => by
              cases hcase : o.box t0 t1
              · exact absurd hcase (hL o ho)
              · simp)
            (n + 1)
          rw [hlt]
          dsimp only
          have hRerr := ih sorter axes t0 t1
            (((sorter (p :: q :: s :: rest) (axes n)).1).drop
              ((p :: q :: s :: rest).length / 2))
            hlendrop.1
            (List.ne_nil_of_length_pos hlendrop.2)
            (fun o ho => hb0 o (hmem o (hrh ho)))
            ⟨m, hmdrop, hmn⟩
            ((newHelper sorter axes
              (((sorter (p :: q :: s :: rest) (axes n)).1).take
                ((p :: q :: s :: rest).length / 2)) t0 t1 (n + 1)).2.2)
          rw [hRerr]

/-- A collection of at least two primitives containing one without a `(0,0)`
bounding box makes the construction panic in the comparator's `unwrap`. -/
theorem newHelper_panics_of_missing_zero_box (sorter : Sorter) (axes : Axes)
    (t0 t1 : ℚ) (l : List Prim) (hlen : 2 ≤ l.length)
    (hmiss : ∃ p ∈ l, p.box 0 0 = none) (n : ℕ) :
    (newHelper sorter axes l t0 t1 n).1 = BResult.panicked := by
  match l with
  | [] => simp at hlen
  | [p] => simp at hlen
  | [p, q] =>
    obtain ⟨m, hmm, hmn⟩ := hmiss
    rw [newHelper]
    dsimp only
    have hcmp : box_compare p q (axes n) = none := by
      unfold box_compare
      rcases List.mem_pair.mp hmm with hmp | hmq
      · subst hmp
        rw [hmn]
      · subst hmq
        cases hpb : p.box 0 0
        · rfl
        · rw [hmn]
    rw [hcmp]
  | p :: q :: s :: rest =>
    rw [newHelper]
    obtain ⟨m, hmm, hmn⟩ := hmiss
    rw [if_pos ?_]
    rw [List.any_eq_true]
    exact ⟨m, hmm, by rw [hmn]; rfl⟩

/-- C9 counterexample: the claim says a missing bounding box is always
reported as a synchronous error value.  For the two-primitive collection
`[boxedPrim, boxlessPrim]` the construction instead panics in the
comparator's `unwrap` (`box_compare` returns `Err`, which is not propagated);
and for the empty collection the construction recurses forever, returning
neither an error nor a node. -/
theorem C9_counterexample_construction :
    (bvhNew idSorter zeroAxes [boxedPrim, boxlessPrim] 0 0 0).1 = BResult.panicked
    ∧ (bvhNew idSorter zeroAxes [boxedPrim, boxlessPrim] 0 0 0).1.isErr = false
    ∧ (bvhNew idSorter zeroAxes ([] : List Prim) 0 0 0).1 = BResult.diverged
    ∧ (bvhNew idSorter zeroAxes ([] : List Prim) 0 0 0).1.isOk = false := by
  have h1 : (bvhNew idSorter zeroAxes [boxedPrim, boxlessPrim] 0 0 0).1
      = BResult.panicked :=
    newHelper_panics_of_missing_zero_box idSorter zeroAxes 0 0 _ (by simp)
      ⟨boxlessPrim, by simp, rfl⟩ 0
  have h2 : (bvhNew idSorter zeroAxes ([] : List Prim) 0 0 0).1
      = BResult.diverged := by
    rw [bvhNew, newHelper]
  exact ⟨h1, by rw [h1]; rfl, h2, by rw [h2]; rfl⟩

/-- C9 (amended): for a nonempty collection whose primitives all have
bounding boxes at `(0,0)` and at the requested interval, `BVHNode::new`
returns a built node; when all `(0,0)` boxes exist but some primitive lacks
a box at the requested interval, the failure is reported as the synchronous
error value the claim describes; but when a collection of two or more
primitives contains one without a `(0,0)` bounding box, the sort comparator
`unwrap`s the `Err` of `box_compare` and panics instead of returning an
error; and on an empty collection the construction never returns. -/
theorem C9_bvh_construction_outcomes (sorter : Sorter) (axes : Axes)
    (t0 t1 : ℚ) (l : List Prim) (n : ℕ) :
    (l ≠ [] → (∀ p ∈ l, (p.box 0 0).isSome = true) →
      (∀ p ∈ l, (p.box t0 t1).isSome = true) →
      ∃ t, (newHelper sorter axes l t0 t1 n).1 = BResult.ok t)
    ∧ (l ≠ [] → (∀ p ∈ l, (p.box 0 0).isSome = true) →
      (∃ p ∈ l, p.box t0 t1 = none) →
      (newHelper sorter axes l t0 t1 n).1
        = BResult.err ("No bounding box in BVHNode constructor.\n"))
    ∧ (2 ≤ l.length → (∃ p ∈ l, p.box 0 0 = none) →
      (newHelper sorter axes l t0 t1 n).1 = BResult.panicked)
    ∧ (newHelper sorter axes ([] : List Prim) t0 t1 n).1 = BResult.diverged :=
  ⟨fun hne hb0 hbt =>
      newHelper_ok_of_boxes l.length sorter axes t0 t1 l le_rfl hne hb0 hbt n,
   fun hne hb0 hm =>
      newHelper_err_of_missing_box l.length sorter axes t0 t1 l le_rfl hne hb0 hm n,
   fun h2 hm => newHelper_panics_of_missing_zero_box sorter axes t0 t1 l h2 hm n,
   by rw [newHelper]⟩

/-- Witness for `C9_bvh_construction_outcomes`: a singleton collection with a
box everywhere builds a node. -/
theorem C9_witness :
    ∃ t, (newHelper idSorter zeroAxes [boxedPrim] 0 0 0).1 = BResult.ok t :=
  (C9_bvh_construction_outcomes idSorter zeroAxes 0 0 [boxedPrim] 0).1
    (by simp)
    (fun p hp => by rw [List.mem_singleton] at hp; subst hp; rfl)
    (fun p hp => by rw [List.mem_singleton] at hp; subst hp; rfl)

/-- Hits of a tree whose leaf primitives honour the queried interval also
honour it: any record `BVHNode::hit` returns has `t` between the bounds. -/
theorem treeHit_bounds (T : HTree) (hresp : ∀ p ∈ T.leaves, HitRespects p) :
    ∀ (r : Ray) (a b : ℚ) (rec : HitRecord),
      T.hit r a b = some rec → a ≤ rec.t ∧ rec.t ≤ b := by
  induction T with
  | prim p =>
    intro r a b rec h
    exact hresp p (by simp [HTree.leaves]) r a b rec h
  | node l rt bb ihl ihr =>
    have hrl : ∀ p ∈ l.leaves, HitRespects p := fun p hp =>
      hresp p (by simp [HTree.leaves, hp])
    have hrr : ∀ p ∈ rt.leaves, HitRespects p := fun p hp =>
      hresp p (by simp [HTree.leaves, hp])
    intro r a b rec h
    simp only [HTree.hit] at h
    split at h
    · split at h
      · exact absurd h (by simp)
      · next heqL heqR =>
        injection h with h'
        subst h'
        exact ihl hrl r a b _ heqL
      · next heqL heqR =>
        injection h with h'
        subst h'
        rw [heqL] at heqR
        exact ihr hrr r a b _ heqR
      · next lrec _ heqL heqR =>
        injection h with h'
        subst h'
        rw [heqL] at heqR
        have hl := ihl hrl r a b _ heqL
        have hr := ihr hrr r a _ _ heqR
        exact ⟨hr.1, le_trans hr.2 hl.2⟩
    · exact absurd h (by simp)

/-- C2: `BVHNode::hit` returns none when the node's own slab test fails;
otherwise it queries the left child on `(t_min, t_max)` and the right child
on `(t_min, left-hit t)` when the left child hit (else `(t_min, t_max)`),
combining so that when both children hit the returned record is the right
child's — which, the right query having been capped at the left hit's `t`,
is the one with the smaller `t` among the two. -/
theorem C2_bvh_node_hit (l rt : HTree) (bb : AABB) (ray : Ray) (t_min t_max : ℚ) :
    (AABB.hit bb ray t_min t_max = false →
      (HTree.node l rt bb).hit ray t_min t_max = none)
    ∧ (AABB.hit bb ray t_min t_max = true →
      (HTree.node l rt bb).hit ray t_min t_max =
        match l.hit ray t_min t_max,
            rt.hit ray t_min
              (match l.hit ray t_min t_max with
                | some v => v.t
                | none => t_max) with
        | none, none => none
        | some lbox, none => some lbox
        | none, some rbox => some rbox
        | some _, some rbox => some rbox)
    ∧ ((∀ p ∈ rt.leaves, HitRespects p) →
      AABB.hit bb ray t_min t_max = true →
      ∀ lrec rrec, l.hit ray t_min t_max = some lrec →
        rt.hit ray t_min lrec.t = some rrec →
        (HTree.node l rt bb).hit ray t_min t_max = some rrec
        ∧ rrec.t ≤ lrec.t
        ∧ rrec.t = min rrec.t lrec.t) := by
  refine ⟨?_, ?_, ?_⟩
  · intro h
    simp only [HTree.hit, h]
    rfl
  · intro h
    simp only [HTree.hit, h]
    rfl
  · intro hresp h lrec rrec hl hr
    have hb := treeHit_bounds rt hresp ray t_min lrec.t rrec hr
    refine ⟨?_, hb.2, (min_eq_left hb.2).symm⟩
    simp only [HTree.hit, h]
    rw [hl]
    dsimp only
    rw [hr]
    simp

/-- Witness for `C2_bvh_node_hit`: a two-leaf node whose left child hits at
`t = 2` and right child at `t = 1` returns the right child's record. -/
theorem C2_witness :
    (HTree.node (.prim c2PrimLeft) (.prim c2PrimRight) c2Box).hit c2Ray 0 5
        = some c2RecRight
    ∧ c2RecRight.t ≤ c2RecLeft.t
    ∧ c2RecRight.t = min c2RecRight.t c2RecLeft.t := by
  have hresp : ∀ p ∈ (HTree.prim c2PrimRight).leaves, HitRespects p := by
    intro p hp
    simp only [HTree.leaves, List.mem_singleton] at hp
    subst hp
    intro r a b rec hrec
    simp only [c2PrimRight] at hrec
    split at hrec
    · next hcond =>
      injection hrec with h'
      subst h'
      exact ⟨by simpa [c2RecRight] using hcond.1, by simpa [c2RecRight] using hcond.2⟩
    · exact absurd hrec (by simp)
  have hbox : AABB.hit c2Box c2Ray 0 5 = true := by
    norm_num [AABB.hit, AABB.slabAxis, c2Box, c2Ray, Vec3.get_zero, Vec3.get_one,
      Vec3.get_two]
  have hL : (HTree.prim c2PrimLeft).hit c2Ray 0 5 = some c2RecLeft := by
    norm_num [HTree.hit, c2PrimLeft]
  have hR : (HTree.prim c2PrimRight).hit c2Ray 0 c2RecLeft.t = some c2RecRight := by
    norm_num [HTree.hit, c2PrimRight, c2RecLeft]
  exact (C2_bvh_node_hit (.prim c2PrimLeft) (.prim c2PrimRight) c2Box c2Ray 0 5).2.2
    hresp hbox c2RecLeft c2RecRight hL hR

theorem listHit_nil (r : Ray) (a b : ℚ) : listHit [] r a b = none := rfl

/-- Folding `HittableList::hit`'s accumulator from an already-found record
(whose `t` is the running `closest_so_far`) yields the rest of the scan's
result at the tightened bound, defaulting to the held record. -/
theorem listHit_foldl_from_some (r : Ray) (a : ℚ) :
    ∀ (ps : List Prim) (rec : HitRecord),
      (ps.foldl
        (fun acc val =>
          match val.hit r a acc.2 with
          | some rec' => (some rec', rec'.t)
          | none => acc)
        ((some rec : Option HitRecord), rec.t)).1
      = some ((listHit ps r a rec.t).getD rec) := by
  intro ps
  induction ps with
  | nil =>
    intro rec
    simp [listHit]
  | cons q qs ih =>
    intro rec
    rw [List.foldl_cons]
    dsimp only
    cases hq : q.hit r a rec.t with
    | some rec2 =>
      rw [ih rec2]
      have hcons : listHit (q :: qs) r a rec.t
          = some ((listHit qs r a rec2.t).getD rec2) := by
        unfold listHit
        rw [List.foldl_cons]
        dsimp only
        rw [hq]
        exact ih rec2
      rw [hcons]
      simp
    | none =>
      rw [ih rec]
      have hcons : listHit (q :: qs) r a rec.t = listHit qs r a rec.t := by
        unfold listHit
        rw [List.foldl_cons]
        dsimp only
        rw [hq]
      rw [hcons]

/-- One step of `HittableList::hit`: the head is probed on the full interval;
a head hit tightens the bound for the tail and stands when the tail misses. -/
theorem listHit_cons (p : Prim) (ps : List Prim) (r : Ray) (a b : ℚ) :
    listHit (p :: ps) r a b =
      match p.hit r a b with
      | none => listHit ps r a b
      | some rec => some ((listHit ps r a rec.t).getD rec) := by
  unfold listHit
  rw [List.foldl_cons]
  dsimp only
  cases hp : p.hit r a b with
  | some rec => exact listHit_foldl_from_some r a ps rec
  | none => rfl

/-- Characterization of `HittableList::hit` for coherent primitives: the scan
returns none exactly when no primitive's canonical contact is within bound,
and any returned record is a canonical contact of minimal `t` among those
within bound. -/
theorem listHit_spec (E : Prim → Option HitRecord) (ray : Ray) (t_min : ℚ) :
    ∀ (l : List Prim),
    (∀ p ∈ l, ∀ b, p.hit ray t_min b =
      match E p with
      | some e => if e.t ≤ b then some e else none
      | none => none) →
    ∀ b : ℚ,
      (listHit l ray t_min b = none ↔ ∀ p ∈ l, ∀ e, E p = some e → ¬ e.t ≤ b)
      ∧ (∀ rec, listHit l ray t_min b = some rec →
          (∃ p ∈ l, E p = some rec) ∧ rec.t ≤ b
          ∧ ∀ p ∈ l, ∀ e, E p = some e → e.t ≤ b → rec.t ≤ e.t) := by
  intro l
  induction l with
  | nil =>
    intro _ b
    refine ⟨by simp [listHit_nil], ?_⟩
    intro rec h
    rw [listHit_nil] at h
    exact absurd h (by simp)
  | cons p ps ih =>
    intro hcoh b
    have hcohp := hcoh p (by simp)
    have hcohps : ∀ q ∈ ps, ∀ b, q.hit ray t_min b =
        match E q with
        | some e => if e.t ≤ b then some e else none
        | none => none := fun q hq => hcoh q (by simp [hq])
    have ihs := ih hcohps
    have hmiss : p.hit ray t_min b = none →
        (∀ e, E p = some e → ¬ e.t ≤ b) →
        (listHit (p :: ps) ray t_min b = none ↔
          ∀ q ∈ p :: ps, ∀ e, E q = some e → ¬ e.t ≤ b)
        ∧ (∀ rec, listHit (p :: ps) ray t_min b = some rec →
            (∃ q ∈ p :: ps, E q = some rec) ∧ rec.t ≤ b
            ∧ ∀ q ∈ p :: ps, ∀ e, E q = some e → e.t ≤ b → rec.t ≤ e.t) := by
      intro hph hpnone
      have hlh : listHit (p :: ps) ray t_min b = listHit ps ray t_min b := by
        rw [listHit_cons, hph]
      constructor
      · rw [hlh, (ihs b).1]
        constructor
        · intro h1 q hq e hEq
          rcases List.mem_cons.mp hq with hqp | hq'
          · subst hqp
            exact hpnone e hEq
          · exact h1 q hq' e hEq
        · intro h1 q hq e hEq
          exact h1 q (List.mem_cons_of_mem _ hq) e hEq
      · intro rec h
        rw [hlh] at h
        obtain ⟨⟨q, hq, hEq⟩, hb', hmin'⟩ := (ihs b).2 rec h
        refine ⟨⟨q, List.mem_cons_of_mem _ hq, hEq⟩, hb', ?_⟩
        intro q' hq' f hEf hfb
        rcases List.mem_cons.mp hq' with hqp | hq''
        · subst hqp
          exact absurd hfb (hpnone f hEf)
        · exact hmin' q' hq'' f hEf hfb
    cases hEp : E p with
    | none =>
      have hph : p.hit ray t_min b = none := by rw [hcohp b, hEp]
      exact hmiss hph (fun e hEq => by rw [hEp] at hEq; exact absurd hEq (by simp))
    | some e =>
      have hph : p.hit ray t_min b = if e.t ≤ b then some e else none := by
        rw [hcohp b, hEp]
      by_cases heb : e.t ≤ b
      · have hph' : p.hit ray t_min b = some e := by rw [hph, if_pos heb]
        have hlh : listHit (p :: ps) ray t_min b
            = some ((listHit ps ray t_min e.t).getD e) := by
          rw [listHit_cons, hph']
        constructor
        · rw [hlh]
          exact ⟨fun h => absurd h (by simp),
            fun hall => absurd heb (hall p (by simp) e hEp)⟩
        · intro rec h
          rw [hlh] at h
          injection h with h'
          cases hps : listHit ps ray t_min e.t with
          | some rec' =>
            rw [hps] at h'
            simp only [Option.getD_some] at h'
            subst h'
            obtain ⟨⟨q, hq, hEq⟩, hb', hmin'⟩ := (ihs e.t).2 rec' hps
            refine ⟨⟨q, List.mem_cons_of_mem _ hq, hEq⟩, le_trans hb' heb, ?_⟩
            intro q' hq' f hEf hfb
            rcases List.mem_cons.mp hq' with hqp | hq''
            · subst hqp
              rw [hEp] at hEf
              injection hEf with hEf'
              subst hEf'
              exact hb'
            · by_cases hfe : f.t ≤ e.t
              · exact hmin' q' hq'' f hEf hfe
              · push_neg at hfe
                exact le_trans hb' (le_of_lt hfe)
          | none =>
            rw [hps] at h'
            simp only [Option.getD_none] at h'
            subst h'
            have hnone := (ihs e.t).1.mp hps
            refine ⟨⟨p, by simp, hEp⟩, heb, ?_⟩
            intro q' hq' f hEf hfb
            rcases List.mem_cons.mp hq' with hqp | hq''
            · subst hqp
              rw [hEp] at hEf
              injection hEf with hEf'
              subst hEf'
              exact le_refl _
            · by_cases hfe : f.t ≤ e.t
              · exact absurd hfe (hnone q' hq'' f hEf)
              · push_neg at hfe
                exact le_of_lt hfe
      · have hph' : p.hit ray t_min b = none := by rw [hph, if_neg heb]
        exact hmiss hph'
          (fun f hEf => by
            rw [hEp] at hEf
            injection hEf with hEf'
            subst hEf'
            exact heb)

/-- Characterization of `BVHNode::hit` for coherent primitives under sound
boxes: the traversal returns none exactly when no leaf's canonical contact is
within bound, and any returned record is a canonical contact of minimal `t`
among those within bound. -/
theorem treeHit_spec (E : Prim → Option HitRecord) (ray : Ray) (t_min : ℚ) :
    ∀ (T : HTree),
    (∀ p ∈ T.leaves, ∀ b, p.hit ray t_min b =
      match E p with
      | some e => if e.t ≤ b then some e else none
      | none => none) →
    TreeBoxSound E ray t_min T →
    ∀ b : ℚ,
      (T.hit ray t_min b = none ↔ ∀ p ∈ T.leaves, ∀ e, E p = some e → ¬ e.t ≤ b)
      ∧ (∀ rec, T.hit ray t_min b = some rec →
          (∃ p ∈ T.leaves, E p = some rec) ∧ rec.t ≤ b
          ∧ ∀ p ∈ T.leaves, ∀ e, E p = some e → e.t ≤ b → rec.t ≤ e.t) := by
  intro T
  induction T with
  | prim p =>
    intro hcoh _ b
    have hcohp := hcoh p (by simp [HTree.leaves])
    have hhit : HTree.hit (.prim p) ray t_min b = p.hit ray t_min b := rfl
    cases hEp : E p with
    | none =>
      have hph : HTree.hit (.prim p) ray t_min b = none := by
        rw [hhit, hcohp b, hEp]
      constructor
      · rw [hph]
        refine ⟨fun _ q hq e hEq => ?_, fun _ => rfl⟩
        rw [List.mem_singleton.mp hq] at hEq
        rw [hEp] at hEq
        exact absurd hEq (by simp)
      · intro rec h
        rw [hph] at h
        exact absurd h (by simp)
    | some e =>
      have hph : HTree.hit (.prim p) ray t_min b
          = if e.t ≤ b then some e else none := by
        rw [hhit, hcohp b, hEp]
      by_cases heb : e.t ≤ b
      · rw [if_pos heb] at hph
        constructor
        · rw [hph]
          exact ⟨fun h => absurd h (by simp),
            fun hall => absurd heb (hall p (by simp [HTree.leaves]) e hEp)⟩
        · intro rec h
          rw [hph] at h
          injection h with h'
          subst h'
          refine ⟨⟨p, by simp [HTree.leaves], hEp⟩, heb, ?_⟩
          intro q hq f hEf hfb
          rw [List.mem_singleton.mp hq] at hEf
          rw [hEp] at hEf
          injection hEf with hEf'
          subst hEf'
          exact le_refl _
      · rw [if_neg heb] at hph
        constructor
        · rw [hph]
          refine ⟨fun _ q hq f hEf => ?_, fun _ => rfl⟩
          rw [List.mem_singleton.mp hq] at hEf
          rw [hEp] at hEf
          injection hEf with hEf'
          subst hEf'
          exact heb
        · intro rec h
          rw [hph] at h
          exact absurd h (by simp)
  | node l rt bb ihl ihr =>
    intro hcoh hbs b
    simp only [TreeBoxSound] at hbs
    obtain ⟨hs, hbsl, hbsr⟩ := hbs
    have hml : ∀ p ∈ l.leaves, p ∈ (HTree.node l rt bb).leaves := by
      intro p hp
      simp [HTree.leaves, hp]
    have hmr : ∀ p ∈ rt.leaves, p ∈ (HTree.node l rt bb).leaves := by
      intro p hp
      simp [HTree.leaves, hp]
    have hcohl : ∀ p ∈ l.leaves, ∀ b, p.hit ray t_min b =
        match E p with
        | some e => if e.t ≤ b then some e else none
        | none => none := fun p hp => hcoh p (hml p hp)
    have hcohr : ∀ p ∈ rt.leaves, ∀ b, p.hit ray t_min b =
        match E p with
        | some e => if e.t ≤ b then some e else none
        | none => none := fun p hp => hcoh p (hmr p hp)
    have ihl' := ihl hcohl hbsl
    have ihr' := ihr hcohr hbsr
    have hsplit : ∀ p ∈ (HTree.node l rt bb).leaves,
        p ∈ l.leaves ∨ p ∈ rt.leaves := by
      intro p hp
      simpa [HTree.leaves] using hp
    cases hbox : AABB.hit bb ray t_min b with
    | false =>
      have hhit : (HTree.node l rt bb).hit ray t_min b = none := by
        simp only [HTree.hit, hbox]
        rfl
      refine ⟨⟨fun _ => hs b hbox, fun _ => hhit⟩, ?_⟩
      intro rec h
      rw [hhit] at h
      exact absurd h (by simp)
    | true =>
      cases hL : l.hit ray t_min b with
      | none =>
        have hnoleft := (ihl' b).1.mp hL
        cases hR : rt.hit ray t_min b with
        | none =>
          have hnoright := (ihr' b).1.mp hR
          have hhit : (HTree.node l rt bb).hit ray t_min b = none := by
            simp only [HTree.hit, hbox]
            rw [if_pos trivial, hL]
            dsimp only
            rw [hR]
          refine ⟨⟨fun _ q hq => ?_, fun _ => hhit⟩, ?_⟩
          · rcases hsplit q hq with hq' | hq'
            · exact hnoleft q hq'
            · exact hnoright q hq'
          · intro rec h
            rw [hhit] at h
            exact absurd h (by simp)
        | some rrec =>
          obtain ⟨⟨q, hq, hEq⟩, hb', hmin'⟩ := (ihr' b).2 rrec hR
          have hhit : (HTree.node l rt bb).hit ray t_min b = some rrec := by
            simp only [HTree.hit, hbox]
            rw [if_pos trivial, hL]
            dsimp only
            rw [hR]
          constructor
          · rw [hhit]
            exact ⟨fun h => absurd h (by simp),
              fun hall => absurd hb' (hall q (hmr q hq) rrec hEq)⟩
          · intro rec h
            rw [hhit] at h
            injection h with h'
            subst h'
            refine ⟨⟨q, hmr q hq, hEq⟩, hb', ?_⟩
            intro q' hq' f hEf hfb
            rcases hsplit q' hq' with hq'' | hq''
            · exact absurd hfb (hnoleft q' hq'' f hEf)
            · exact hmin' q' hq'' f hEf hfb
      | some lrec =>
        obtain ⟨⟨ql, hql, hEql⟩, hbl, hminl⟩ := (ihl' b).2 lrec hL
        cases hR : rt.hit ray t_min lrec.t with
        | none =>
          have hnoright := (ihr' lrec.t).1.mp hR
          have hhit : (HTree.node l rt bb).hit ray t_min b = some lrec := by
            simp only [HTree.hit, hbox]
            rw [if_pos trivial, hL]
            dsimp only
            rw [hR]
          constructor
          · rw [hhit]
            exact ⟨fun h => absurd h (by simp),
              fun hall => absurd hbl (hall ql (hml ql hql) lrec hEql)⟩
          · intro rec h
            rw [hhit] at h
            injection h with h'
            subst h'
            refine ⟨⟨ql, hml ql hql, hEql⟩, hbl, ?_⟩
            intro q' hq' f hEf hfb
            rcases hsplit q' hq' with hq'' | hq''
            · exact hminl q' hq'' f hEf hfb
            · by_cases hfl : f.t ≤ lrec.t
              · exact absurd hfl (hnoright q' hq'' f hEf)
              · push_neg at hfl
                exact le_of_lt hfl
        | some rrec =>
          obtain ⟨⟨qr, hqr, hEqr⟩, hbr, hminr⟩ := (ihr' lrec.t).2 rrec hR
          have hhit : (HTree.node l rt bb).hit ray t_min b = some rrec := by
            simp only [HTree.hit, hbox]
            rw [if_pos trivial, hL]
            dsimp only
            rw [hR]
          constructor
          · rw [hhit]
            exact ⟨fun h => absurd h (by simp),
              fun hall => absurd (le_trans hbr hbl)
                (hall qr (hmr qr hqr) rrec hEqr)⟩
          · intro rec h
            rw [hhit] at h
            injection h with h'
            subst h'
            refine ⟨⟨qr, hmr qr hqr, hEqr⟩, le_trans hbr hbl, ?_⟩
            intro q' hq' f hEf hfb
            rcases hsplit q' hq' with hq'' | hq''
            · exact le_trans hbr (hminl q' hq'' f hEf hfb)
            · by_cases hfl : f.t ≤ lrec.t
              · exact hminr q' hq'' f hEf hfl
              · push_neg at hfl
                exact le_trans hbr (le_of_lt hfl)

/-- The primitives at the leaves of a tree built by `new_helper` are exactly
the members of the slice it was built from (the one-element slice duplicates
its primitive; order may change through sorting). -/
theorem newHelper_leaves :
    ∀ (N : ℕ) (sorter : Sorter) (axes : Axes) (t0 t1 : ℚ) (l : List Prim),
    l.length ≤ N →
    ∀ (n : ℕ) (T : HTree), (newHelper sorter axes l t0 t1 n).1 = BResult.ok T →
    ∀ p, p ∈ T.leaves ↔ p ∈ l := by
  intro N
  induction N with
  | zero =>
    intro sorter axes t0 t1 l hlen n T h p
    match l with
    | [] =>
      rw [newHelper] at h
      exact absurd h (by simp)
    | q :: qs => simp at hlen
  | succ N ih =>
    intro sorter axes t0 t1 l hlen n T h p
    match l with
    | [] =>
      rw [newHelper] at h
      exact absurd h (by simp)
    | [q] =>
      rw [newHelper] at h
      dsimp only at h
      split at h
      · injection h with h'
        subst h'
        simp [HTree.leaves]
      · exact absurd h (by simp)
    | [q, q2] =>
      rw [newHelper] at h
      dsimp only at h
      split at h
      · exact absurd h (by simp)
      · next ord hord =>
        by_cases hlt : ord = Ordering.lt
        · rw [if_pos hlt] at h
          dsimp only at h
          split at h
          · injection h with h'
            subst h'
            simp [HTree.leaves]
          · exact absurd h (by simp)
        · rw [if_neg hlt] at h
          dsimp only at h
          split at h
          · injection h with h'
            subst h'
            simp only [HTree.leaves, List.mem_append, List.mem_singleton,
              List.mem_cons, List.not_mem_nil]
            tauto
          · exact absurd h (by simp)
    | q :: q2 :: q3 :: qs =>
      rw [newHelper] at h
      split at h
      · exact absurd h (by simp)
      · dsimp only at h
        split at h
        · next ltree heqL =>
          split at h
          · next rtree heqR =>
            split at h
            · injection h with h'
              subst h'
              have hlenc : (q :: q2 :: q3 :: qs).length ≤ N + 1 := hlen
              simp only [List.length_cons] at hlenc
              have hslen :
                  ((sorter (q :: q2 :: q3 :: qs) (axes n)).1).length
                  = (q :: q2 :: q3 :: qs).length :=
                ((sorter (q :: q2 :: q3 :: qs) (axes n)).2).length_eq
              have hltake := ih sorter axes t0 t1
                (((sorter (q :: q2 :: q3 :: qs) (axes n)).1).take
                  ((q :: q2 :: q3 :: qs).length / 2))
                (by
                  rw [List.length_take, hslen]
                  simp only [List.length_cons]
                  omega)
                _ _ heqL p
              have hrdrop := ih sorter axes t0 t1
                (((sorter (q :: q2 :: q3 :: qs) (axes n)).1).drop
                  ((q :: q2 :: q3 :: qs).length / 2))
                (by
                  rw [List.length_drop, hslen]
                  simp only [List.length_cons]
                  omega)
                _ _ heqR p
              have hperm := (sorter (q :: q2 :: q3 :: qs) (axes n)).2
              have hmemsort : p ∈ (sorter (q :: q2 :: q3 :: qs) (axes n)).1
                  ↔ p ∈ q :: q2 :: q3 :: qs := hperm.mem_iff
              rw [← List.take_append_drop ((q :: q2 :: q3 :: qs).length / 2)
                ((sorter (q :: q2 :: q3 :: qs) (axes n)).1), List.mem_append]
                at hmemsort
              simp only [HTree.leaves, List.mem_append]
              rw [hltake, hrdrop]
              exact hmemsort
            · exact absurd h (by simp)
          · next hne => exact absurd h (hne _)
        · next hne => exact absurd h (hne _)

/-- C1 (amended): for every tree the randomized construction can produce
from a collection of coherent primitives with sound boxes, the BVH's hit and
the brute-force linear scan agree exactly in `t` and in hit point for every
ray and interval; the full records (material included) agree whenever the
minimal `t` is attained by a unique canonical contact — ties can hand the
two traversals records of different primitives (see the counterexample). -/
theorem C1_bvh_matches_linear_scan (sorter : Sorter) (axes : Axes)
    (t0 t1 : ℚ) (l : List Prim) (n : ℕ) (T : HTree)
    (hbuild : (bvhNew sorter axes l t0 t1 n).1 = BResult.ok T)
    (ray : Ray) (t_min t_max : ℚ) (E : Prim → Option HitRecord)
    (hcoh : CoherentAll E ray t_min l)
    (hbox : TreeBoxSound E ray t_min T) :
    ((T.hit ray t_min t_max).map (fun rec => rec.t)
      = (listHit l ray t_min t_max).map (fun rec => rec.t))
    ∧ ((T.hit ray t_min t_max).map (fun rec => rec.p)
      = (listHit l ray t_min t_max).map (fun rec => rec.p))
    ∧ ((∀ p q e f, p ∈ l → q ∈ l → E p = some e → E q = some f →
          e.t = f.t → e = f) →
      T.hit ray t_min t_max = listHit l ray t_min t_max) := by
  have hleaves := newHelper_leaves l.length sorter axes t0 t1 l le_rfl n T hbuild
  have hcoh1 : ∀ p ∈ l, ∀ b, p.hit ray t_min b =
      match E p with
      | some e => if e.t ≤ b then some e else none
      | none => none := fun p hp => (hcoh p hp).1
  have hcohT : ∀ p ∈ T.leaves, ∀ b, p.hit ray t_min b =
      match E p with
      | some e => if e.t ≤ b then some e else none
      | none => none := fun p hp => hcoh1 p ((hleaves p).mp hp)
  have hts := treeHit_spec E ray t_min T hcohT hbox t_max
  have hls := listHit_spec E ray t_min l hcoh1 t_max
  cases hT : T.hit ray t_min t_max with
  | none =>
    have hnone : listHit l ray t_min t_max = none := by
      rw [hls.1]
      intro p hp e hEe
      exact (hts.1.mp hT) p ((hleaves p).mpr hp) e hEe
    exact ⟨by rw [hnone], by rw [hnone], fun _ => by rw [hnone]⟩
  | some recT =>
    obtain ⟨⟨pT, hpT, hET⟩, hbT, hminT⟩ := hts.2 recT hT
    cases hLs : listHit l ray t_min t_max with
    | none =>
      exact ((hls.1.mp hLs) pT ((hleaves pT).mp hpT) recT hET hbT).elim
    | some recL =>
      obtain ⟨⟨pL, hpL, hEL⟩, hbL, hminL⟩ := hls.2 recL hLs
      have htt : recT.t = recL.t := le_antisymm
        (hminT pL ((hleaves pL).mpr hpL) recL hEL hbL)
        (hminL pT ((hleaves pT).mp hpT) recT hET hbT)
      have hpp : recT.p = recL.p := by
        rw [(hcoh pT ((hleaves pT).mp hpT)).2 recT hET,
            (hcoh pL hpL).2 recL hEL, htt]
      refine ⟨by simp [htt], by simp [hpp], ?_⟩
      intro huniq
      rw [huniq pT pL recT recL ((hleaves pT).mp hpT) hpL hET hEL htt]

/-- Witness for `C1_bvh_matches_linear_scan`: the tree built from the
singleton `[boxedPrim]` scans like the list. -/
theorem C1_witness :
    (c1Tree.hit ⟨⟨0, 0, 0⟩, ⟨1, 1, 1⟩, 0⟩ 0 5).map (fun rec => rec.t)
      = (listHit [boxedPrim] ⟨⟨0, 0, 0⟩, ⟨1, 1, 1⟩, 0⟩ 0 5).map (fun rec => rec.t) :=
  (C1_bvh_matches_linear_scan idSorter zeroAxes 0 0 [boxedPrim] 0 c1Tree
    (by rw [bvhNew, newHelper]; rfl)
    ⟨⟨0, 0, 0⟩, ⟨1, 1, 1⟩, 0⟩ 0 5 (fun _ => none)
    (fun p hp => by
      rw [List.mem_singleton] at hp
      subst hp
      exact ⟨fun b => rfl, fun e he => Option.noConfusion he⟩)
    ⟨fun b hb p hp e he => Option.noConfusion he, trivial, trivial⟩).1

/-- C1 counterexample: two spheres of equal radius tangent to the same ray
at the same point `(3,4,12)` (`t = 1`), with materials 1 and 2.  With axis
draw 0 the comparator orders the second sphere's box first, so the
construction produces `ceTree` with the list's second element as left child.
Both traversals report the same `t` and point, but the tie is resolved
differently: the BVH returns material 1, the linear scan material 2 — the
claim's "equals in point, t, and material" fails at this input. -/
theorem C1_counterexample_material_mismatch :
    (bvhNew idSorter zeroAxes [cePrim1, cePrim2] 0 0 0).1 = BResult.ok ceTree
    ∧ (ceTree.hit ceRay 0 2).map (fun rec => (rec.t, rec.p, rec.mat))
        = some (1, ⟨3, 4, 12⟩, 1)
    ∧ (listHit [cePrim1, cePrim2] ceRay 0 2).map (fun rec => (rec.t, rec.p, rec.mat))
        = some (1, ⟨3, 4, 12⟩, 2)
    ∧ (1 : ℕ) ≠ 2 := by
  have hb1 : cePrim1.box 0 0 = some (sphereBoundingBox ceSphere1) := rfl
  have hb2 : cePrim2.box 0 0 = some (sphereBoundingBox ceSphere2) := rfl
  have hcmp : box_compare cePrim1 cePrim2 (zeroAxes 0) = some Ordering.gt := by
    unfold box_compare
    rw [hb1, hb2]
    norm_num [sphereBoundingBox, ceSphere1, ceSphere2, Vec3.get_zero, Vec3.sub_def,
      zeroAxes]
  refine ⟨?_, ?_, ?_, by decide⟩
  · rw [bvhNew, newHelper]
    dsimp only
    rw [hcmp]
    dsimp only
    rw [if_neg (by decide : ¬ (Ordering.gt = Ordering.lt))]
    rw [hb2, hb1]
    rfl
  · norm_num [ceTree, HTree.hit, cePrim1, cePrim2, AABB.hit, AABB.slabAxis,
      AABB.surrounding_box, sphereBoundingBox, ceSphere1, ceSphere2, ceRay,
      Vec3.get_zero, Vec3.get_one, Vec3.get_two, sphereHit, sphereHitCore,
      sphereDiscriminant, ratSqrt, sphereUV, HitRecord.set_face_normal, Ray.at,
      Vec3.smul, Vec3.add_def, Vec3.sub_def, Vec3.sdiv, Vec3.dot,
      Vec3.length_squared, Vec3.neg_def, Nat.sqrt_zero, Nat.sqrt_one]
  · norm_num [listHit, cePrim1, cePrim2, ceRay, sphereHit, sphereHitCore,
      sphereDiscriminant, ratSqrt, sphereUV, HitRecord.set_face_normal, Ray.at,
      Vec3.smul, Vec3.add_def, Vec3.sub_def, Vec3.sdiv, Vec3.dot,
      Vec3.length_squared, Vec3.neg_def, ceSphere1, ceSphere2, Nat.sqrt_zero,
      Nat.sqrt_one]
